import Mathlib

/-!
# xsr: the command-line option parser (`arg_parser.cpp`)

A shallow embedding of `show_help` and `parse_arguments`, together with a model
of the GNU `getopt_long` scanner that `parse_arguments` drives.

* The process-wide record `options` is passed in and returned explicitly.
* `std::cerr` is the list of texts written, in order. The scanner writes its own
  error messages to the same stream (`opterr` keeps its initial value 1).
* `getopt_long` is library code. It is modelled one call at a time, in its
  default ordering mode (arguments are permuted, `POSIXLY_CORRECT` is not set).
  The scanner state is kept as lists: the elements `argv[optind..argc)` still to
  be scanned, the unread characters of a short-option element in progress, and
  the non-option elements already passed over (which the real scanner moves
  behind the options).
* A long-option table ends with an all-zero entry, which the scanner needs to
  find the end. The array `longoptions` of the source has six entries and no
  such entry. The search for a name stops inside the array when it meets the
  exact name; for every other name it runs past the last entry. The model
  records whether a table is closed and makes the run past an open table a
  fault (`Fault.table_overrun`): the program has no result there.
* A `String` stands for a C string and the scanner reads it `char` by `char`;
  an option character outside ASCII stands for the byte the scanner reads.
* `std::stoi` may throw; `parse_arguments` therefore returns in `Except`.
-/

namespace Xsr

/-- Modelled from the spec: the configuration record `xsr_options`, declared in
`arg_parser.h` (not part of the sources at hand). Fields and types follow the
data-model table of the spec; `countdown` is a C++ `int`. -/
structure xsr_options where
  outfile : Option String
  image_ext : String
  quiet : Bool
  verbose : Bool
  mouse_icon : Option String
  no_mouse : Bool
  countdown : Int
deriving DecidableEq, Repr

/-- Modelled from the spec: the defaults of the configuration record (the
initialisers live in `arg_parser.h`); `outfile` is not set by default. -/
def default_options : xsr_options :=
  { outfile := none, image_ext := "png", quiet := false, verbose := false,
    mouse_icon := none, no_mouse := false, countdown := 5 }

/-- What can go wrong at run time: the two exceptions of `std::stoi`, the
construction of a `std::string` from a null pointer, the scanner reading a
long-option table past its last entry because the closing all-zero entry is
missing, and the exhaustion of the loop budget of the model (shown below never
to happen). -/
inductive Fault where
  | invalid_argument
  | out_of_range
  | null_string
  | table_overrun
  | out_of_fuel
deriving DecidableEq, Repr

deriving instance DecidableEq for Except

/-! ## The usage text -/

/-- The text `show_help` writes to `std::cerr` (the trailing newline is the
`std::endl`). -/
def show_help (progname : String) : String :=
  "Usage: " ++ progname ++ " [options] [outfile]\nwhere options are:\n\n--out|-o outfile\t\tWrite data to outfile instead of \n\t\t\t\t\"Untitled Recording.html\"\n\n--image-extension|-c ext\tUse the image format with extension ext. \n\t\t\t\tDefault: png; supported: png\n\n--quiet|-q\t\t\tDo not print to stdout. Implied by \"-o -\"\n\n--verbose|-v\t\t\tPrint detailed information to stdout;\n\n--countdown sec\t\t\tWait sec seconds before beginning to record.\n\t\t\t\tDefault 5\n\nhttps://github.com/nonnymoose/xsr" ++ "\n"

/-- The warning of the tail of `parse_arguments`, with its `std::endl`. -/
def spurious_warning : String :=
  "Warning: One or more spurious non-option arguments!" ++ "\n"

/-! ## The option scanner `getopt_long` -/

/-- An entry of a long-option table (`struct option`). The member `flag` is
`nullptr` in every entry of the program, so a matched entry returns `val`. -/
structure long_option where
  name : String
  has_arg : Nat
  val : Int
deriving DecidableEq, Repr

def no_argument : Nat := 0
def required_argument : Nat := 1
def optional_argument : Nat := 2

/-- A long-option table as the scanner gets it: the entries of the array, and
whether an all-zero entry closes it. -/
structure option_table where
  entries : List long_option
  terminated : Bool
deriving DecidableEq, Repr

/-- The errors the scanner reports (each with the code `'?'`). -/
inductive scanner_error where
  /-- A short option character that is not in the option string. -/
  | invalid_option (c : Char)
  /-- A short option that requires an argument is the last thing in `argv`. -/
  | requires_argument (c : Char)
  /-- A long name that no entry of the table begins with. -/
  | unrecognized (text : List Char)
  /-- A long name that entries with different meanings begin with. -/
  | ambiguous (text : List Char) (names : List String)
  /-- A value attached with `=` to a long option that takes none. -/
  | no_argument_allowed (name : String)
  /-- A long option that requires an argument is the last thing in `argv`. -/
  | long_requires_argument (name : String)
deriving DecidableEq, Repr

/-- The message the scanner writes to `stderr` for an error ("C" locale). -/
def scanner_error.message (argv0 : String) : scanner_error → String
  | .invalid_option c => argv0 ++ ": invalid option -- \x27" ++ String.mk [c] ++ "\x27\n"
  | .requires_argument c =>
    argv0 ++ ": option requires an argument -- \x27" ++ String.mk [c] ++ "\x27\n"
  | .unrecognized text =>
    argv0 ++ ": unrecognized option \x27--" ++ String.mk text ++ "\x27\n"
  | .ambiguous text names =>
    argv0 ++ ": option \x27--" ++ String.mk text ++ "\x27 is ambiguous; possibilities:"
      ++ String.join (names.map (fun q => " \x27--" ++ q ++ "\x27")) ++ "\n"
  | .no_argument_allowed name =>
    argv0 ++ ": option \x27--" ++ name ++ "\x27 doesn\x27t allow an argument\n"
  | .long_requires_argument name =>
    argv0 ++ ": option \x27--" ++ name ++ "\x27 requires an argument\n"

/-- The scanner state between two calls of `getopt_long`. -/
structure getopt_data where
  /-- The elements `argv[optind], ..., argv[argc-1]` not yet scanned. -/
  rest : List String
  /-- The unread characters of the short-option element in progress. -/
  nextchar : List Char
  /-- The non-option elements passed over so far, in order. -/
  nonopts : List String
deriving DecidableEq, Repr

/-- What one call of `getopt_long` yields: the returned code, `optarg`, the
error it reports (whose message it writes to `stderr`) and the new scanner
state. When the code is `-1`, `data.rest` is `argv[optind..argc)` as the caller
finds it. -/
structure getopt_result where
  code : Int
  optarg : Option String
  error : Option scanner_error
  data : getopt_data
deriving DecidableEq, Repr

/-- The C function `strchr` on a character list: the suffix that starts at the
first occurrence of `c`. -/
def strchr : List Char → Char → Option (List Char)
  | [], _ => none
  | x :: xs, c => if x = c then some (x :: xs) else strchr xs c

/-- The code `'?'` as an `int`. -/
def QUESTION : Int := '?'.toNat

/-- The short-option step of `getopt_long`: the option character `c` has just
been read from the element in progress, `cs` are the characters after it and
`rest` the elements after that element. -/
def short_option (optstring : List Char) (c : Char) (cs : List Char)
    (rest nonopts : List String) : getopt_result :=
  let invalid : getopt_result :=
    { code := QUESTION, optarg := none, error := some (.invalid_option c),
      data := { rest := rest, nextchar := cs, nonopts := nonopts } }
  match strchr optstring c with
  | none => invalid
  | some temp =>
    if c = ':' ∨ c = ';' then invalid
    else
      match temp with
      | _ :: ':' :: ':' :: _ =>
        -- an option with an optional argument: only the rest of the element
        { code := c.toNat,
          optarg := if cs = [] then none else some (String.mk cs),
          error := none,
          data := { rest := rest, nextchar := [], nonopts := nonopts } }
      | _ :: ':' :: _ =>
        -- an option that requires an argument
        if cs ≠ [] then
          { code := c.toNat, optarg := some (String.mk cs), error := none,
            data := { rest := rest, nextchar := [], nonopts := nonopts } }
        else
          match rest with
          | [] =>
            { code := QUESTION, optarg := none, error := some (.requires_argument c),
              data := { rest := [], nextchar := [], nonopts := nonopts } }
          | a :: rest1 =>
            { code := c.toNat, optarg := some a, error := none,
              data := { rest := rest1, nextchar := [], nonopts := nonopts } }
      | _ =>
        { code := c.toNat, optarg := none, error := none,
          data := { rest := rest, nextchar := cs, nonopts := nonopts } }

/-- The error return of `process_long_option`: the code `'?'` with an error. -/
def long_failure (e : scanner_error) (rest nonopts : List String) : getopt_result :=
  { code := QUESTION, optarg := none, error := some e,
    data := { rest := rest, nextchar := [], nonopts := nonopts } }

/-- The end of `process_long_option` once the entry `p` has been found:
`nameend` is empty or starts at the `=` of the element. An attached value is
taken if the entry allows one; a required argument without `=` is the next
element; an optional argument is never taken from the next element. -/
def long_found (p : long_option) (nameend : List Char)
    (rest nonopts : List String) : getopt_result :=
  match nameend with
  | _ :: value =>
    if p.has_arg ≠ 0 then
      { code := p.val, optarg := some (String.mk value), error := none,
        data := { rest := rest, nextchar := [], nonopts := nonopts } }
    else
      long_failure (.no_argument_allowed p.name) rest nonopts
  | [] =>
    if p.has_arg = 1 then
      match rest with
      | a :: rest1 =>
        { code := p.val, optarg := some a, error := none,
          data := { rest := rest1, nextchar := [], nonopts := nonopts } }
      | [] =>
        long_failure (.long_requires_argument p.name) rest nonopts
    else
      { code := p.val, optarg := none, error := none,
        data := { rest := rest, nextchar := [], nonopts := nonopts } }

/-- The long-option step of `getopt_long` (`process_long_option`): `nextchar`
is the element without its leading `--`, `rest` the elements after it. The
first search looks for the exact name and stops at the entry that has it. If
no entry has it, the search has gone through the whole table up to its closing
entry: a table without one is overrun. On a closed table a second search
accepts the name as an abbreviation when all entries it is a prefix of agree in
`has_arg` and `val`. -/
def process_long_option (longopts : option_table)
    (nextchar : List Char) (rest nonopts : List String) : Except Fault getopt_result :=
  let name := nextchar.takeWhile (fun x => x ≠ '=')
  let nameend := nextchar.dropWhile (fun x => x ≠ '=')
  match longopts.entries.find? (fun p => p.name.data = name) with
  | some p => .ok (long_found p nameend rest nonopts)
  | none =>
    if longopts.terminated = false then .error .table_overrun
    else
      match longopts.entries.filter (fun p => name.isPrefixOf p.name.data) with
      | [] => .ok (long_failure (.unrecognized nextchar) rest nonopts)
      | p :: ps =>
        if ps.any (fun q => q.has_arg ≠ p.has_arg ∨ q.val ≠ p.val) then
          .ok (long_failure (.ambiguous nextchar ((p :: ps).map (fun q => q.name)))
            rest nonopts)
        else .ok (long_found p nameend rest nonopts)

/-- The start of a new element in `getopt_long`: non-option elements (those not
starting with `-`, and `-` itself) are passed over and collected, `--` ends the
scan, `--name...` is a long option and `-x...` a group of short options. At the
end of the scan the collected non-options are what `argv[optind..argc)` holds. -/
def next_element (optstring : List Char) (longopts : option_table) :
    List String → List String → Except Fault getopt_result
  | [], nonopts =>
    .ok { code := -1, optarg := none, error := none,
          data := { rest := nonopts, nextchar := [], nonopts := [] } }
  | a :: rest, nonopts =>
    match a.data with
    | ['-', '-'] =>
      .ok { code := -1, optarg := none, error := none,
            data := { rest := nonopts ++ rest, nextchar := [], nonopts := [] } }
    | '-' :: '-' :: n :: ns => process_long_option longopts (n :: ns) rest nonopts
    | '-' :: c :: cs => .ok (short_option optstring c cs rest nonopts)
    | _ => next_element optstring longopts rest (nonopts ++ [a])

/-- One call `getopt_long(argc, argv, optstring, longopts, nullptr)`. -/
def getopt_long (optstring : List Char) (longopts : option_table)
    (d : getopt_data) : Except Fault getopt_result :=
  match d.nextchar with
  | c :: cs => .ok (short_option optstring c cs d.rest d.nonopts)
  | [] => next_element optstring longopts d.rest d.nonopts

/-! ## `std::stoi` -/

/-- The C function `isspace` in the "C" locale. -/
def isspace (c : Char) : Bool :=
  c = ' ' || c = '\t' || c = '\n' || c = '\x0b' || c = '\x0c' || c = '\r'

/-- The value of a list of decimal digits. -/
def digits_value (ds : List Char) : Nat :=
  ds.foldl (fun acc c => 10 * acc + (c.toNat - '0'.toNat)) 0

/-- The function `std::stoi(str)`: leading white space is skipped, a sign is
optional, then the longest run of decimal digits is converted; what follows is
ignored. No digit gives `std::invalid_argument`, a value outside `int` gives
`std::out_of_range`. -/
def stoi (s : String) : Except Fault Int :=
  let body := s.data.dropWhile isspace
  let signed : Bool × List Char :=
    match body with
    | '-' :: t => (true, t)
    | '+' :: t => (false, t)
    | t => (false, t)
  let ds := signed.2.takeWhile Char.isDigit
  if ds = [] then .error .invalid_argument
  else
    let v : Int := if signed.1 then - (digits_value ds : Int) else (digits_value ds : Int)
    if v < -2147483648 ∨ 2147483647 < v then .error .out_of_range else .ok v

/-! ## `parse_arguments` -/

/-- The string `shortoptions` of `parse_arguments`. -/
def shortoptions : List Char := "o:c:qhv".data

/-- The table `longoptions` of `parse_arguments`; the entries for `mouse-icon`,
`cursor` and `no-mouse` are commented out in the source. The array stops after
the entry of `countdown`: it has no closing all-zero entry. -/
def longoptions : option_table :=
  { entries :=
      [ { name := "out", has_arg := required_argument, val := 'o'.toNat },
        { name := "image-extension", has_arg := required_argument, val := 'c'.toNat },
        { name := "quiet", has_arg := no_argument, val := 'q'.toNat },
        { name := "help", has_arg := no_argument, val := 'h'.toNat },
        { name := "verbose", has_arg := no_argument, val := 'v'.toNat },
        { name := "countdown", has_arg := optional_argument, val := 3 } ],
    terminated := false }

/-- What a call of `parse_arguments` leaves behind: the returned boolean, the
record `options` and the texts written to `std::cerr`. -/
structure Outcome where
  ret : Bool
  options : xsr_options
  cerr : List String
deriving DecidableEq, Repr

/-- The statements of `parse_arguments` after the loop: `operands` is
`argv[optind..argc)`. The first operand becomes `outfile`; if another one is
left and `quiet` is off, the warning is written. Returns `false`. -/
def parse_tail (operands : List String) (options : xsr_options) (cerr : List String) :
    Outcome :=
  match operands with
  | [] => { ret := false, options := options, cerr := cerr }
  | a :: operands1 =>
    let options1 := { options with outfile := some a }
    if operands1 ≠ [] ∧ options1.quiet = false then
      { ret := false, options := options1, cerr := cerr ++ [spurious_warning] }
    else
      { ret := false, options := options1, cerr := cerr }

/-- What the scanner has written to `stderr` during a call. -/
def written (argv0 : String) (r : getopt_result) : List String :=
  (r.error.map (scanner_error.message argv0)).toList

/-- The loop `while (true)` of `parse_arguments` followed by its tail. Each
round calls `getopt_long` and dispatches on the returned code as the `switch`
does; the number of rounds is bounded by `fuel`. -/
def parse_loop (argv0 : String) :
    Nat → getopt_data → xsr_options → List String → Except Fault Outcome
  | 0, _, _, _ => .error .out_of_fuel
  | fuel + 1, d, options, cerr =>
    match getopt_long shortoptions longoptions d with
    | .error e => .error e
    | .ok r =>
      let cerr1 := cerr ++ written argv0 r
      if r.code = -1 then
        .ok (parse_tail r.data.rest options cerr1)
      else if r.code = 'o'.toNat then
        parse_loop argv0 fuel r.data { options with outfile := r.optarg } cerr1
      else if r.code = 'c'.toNat then
        match r.optarg with
        | some ext => parse_loop argv0 fuel r.data { options with image_ext := ext } cerr1
        | none => .error .null_string
      else if r.code = 'q'.toNat then
        parse_loop argv0 fuel r.data { options with quiet := true, verbose := false } cerr1
      else if r.code = '?'.toNat ∨ r.code = 'h'.toNat then
        .ok { ret := true, options := options, cerr := cerr1 ++ [show_help argv0] }
      else if r.code = 'v'.toNat then
        parse_loop argv0 fuel r.data { options with verbose := true, quiet := false } cerr1
      else if r.code = '1'.toNat then
        parse_loop argv0 fuel r.data { options with mouse_icon := r.optarg } cerr1
      else if r.code = '2'.toNat then
        parse_loop argv0 fuel r.data { options with no_mouse := true } cerr1
      else if r.code = '3'.toNat then
        match r.optarg with
        | some text =>
          match stoi text with
          | .ok n => parse_loop argv0 fuel r.data { options with countdown := n } cerr1
          | .error e => .error e
        | none => parse_loop argv0 fuel r.data { options with countdown := 5 } cerr1
      else
        parse_loop argv0 fuel r.data options cerr1

/-- A bound on the number of `getopt_long` calls a scanner state allows: every
call that does not end the scan uses up a character or an element. -/
def scan_budget (d : getopt_data) : Nat :=
  d.nextchar.length + (d.rest.map (fun a => a.length + 1)).sum

/-- The function `parse_arguments(argc, argv)` run on the record `options`.
With `argc < 1` the scanner returns `-1` at once and `optind` (1) is not below
`argc`; otherwise the scan starts behind `argv[0]`. -/
def parse_arguments (argv : List String) (options : xsr_options) : Except Fault Outcome :=
  match argv with
  | [] => .ok { ret := false, options := options, cerr := [] }
  | argv0 :: args =>
    let d : getopt_data := { rest := args, nextchar := [], nonopts := [] }
    parse_loop argv0 (scan_budget d + 1) d options []

/-! ## Observing the scanner

The specification speaks about what the scan of an argument list meets. The
following definitions read that off the scanner alone, without the record. -/

/-- The results of the successive calls of `getopt_long` that start in state
`d`, up to and including the first call that returns `-1`; the list ends
earlier, without such a result, when a call runs past the table. -/
def getopt_calls : Nat → getopt_data → List getopt_result
  | 0, _ => []
  | fuel + 1, d =>
    match getopt_long shortoptions longoptions d with
    | .error _ => []
    | .ok r => if r.code = -1 then [r] else r :: getopt_calls fuel r.data

/-- The results of the calls of a scan of `argv`. -/
def scan (argv : List String) : List getopt_result :=
  match argv with
  | [] => [{ code := -1, optarg := none, error := none,
             data := { rest := [], nextchar := [], nonopts := [] } }]
  | _ :: args =>
    let d : getopt_data := { rest := args, nextchar := [], nonopts := [] }
    getopt_calls (scan_budget d + 1) d

/-- Whether the scan of `argv` reaches the end of the argument list (its last
call returns `-1`), so that no call runs past the table. -/
def completes (argv : List String) : Bool :=
  match (scan argv).getLast? with
  | some r => decide (r.code = -1)
  | none => false

/-- The option codes a scan of `argv` returns, in order. -/
def scan_codes (argv : List String) : List Int :=
  ((scan argv).map (fun r => r.code)).filter (fun k => k ≠ -1)

/-- The positional arguments: `argv[optind..argc)` at the end of the scan. -/
def operands (argv : List String) : List String :=
  match (scan argv).getLast? with
  | some r => r.data.rest
  | none => []

/-- Whether the scan meets a stop: a help option (`'h'`) or a scanner error
(`'?'`). -/
def stops (argv : List String) : Bool :=
  (scan_codes argv).any (fun k => k = '?'.toNat || k = 'h'.toNat)

/-- The effect of one scanner result on the record, for the codes that do not
end the loop. -/
def option_effect (options : xsr_options) (r : getopt_result) : xsr_options :=
  if r.code = 'o'.toNat then { options with outfile := r.optarg }
  else if r.code = 'c'.toNat then { options with image_ext := r.optarg.getD options.image_ext }
  else if r.code = 'q'.toNat then { options with quiet := true, verbose := false }
  else if r.code = 'v'.toNat then { options with verbose := true, quiet := false }
  else options

/-- The run of `parse_arguments` replayed on the results of a scan. A list
that is used up without a result `-1` or a stop is a scan that ran past the
table. -/
def replay (argv0 : String) :
    List getopt_result → xsr_options → List String → Except Fault Outcome
  | [], _, _ => .error .table_overrun
  | r :: rs, options, cerr =>
    if r.code = -1 then .ok (parse_tail r.data.rest options cerr)
    else if r.code = '?'.toNat ∨ r.code = 'h'.toNat then
      .ok { ret := true, options := options,
            cerr := cerr ++ written argv0 r ++ [show_help argv0] }
    else replay argv0 rs (option_effect options r) cerr

/-- A scanner state with further elements appended to `argv`. -/
def getopt_data.extend (d : getopt_data) (extra : List String) : getopt_data :=
  { d with rest := d.rest ++ extra }

/-- A scanner result whose state has further elements appended to `argv`. -/
def getopt_result.extend (r : getopt_result) (extra : List String) : getopt_result :=
  { r with data := r.data.extend extra }

/-- The scanner errors the program can meet: a short option character that is
none of `o`, `c`, `q`, `h`, `v`, `-o` or `-c` without the required argument, `--out` or
`--image-extension` without it, and a value attached to `--quiet`, `--help` or
`--verbose`. -/
def listed_cause : scanner_error → Bool
  | .invalid_option c => !(['o', 'c', 'q', 'h', 'v'].contains c)
  | .requires_argument c => c = 'o' || c = 'c'
  | .long_requires_argument name => name = "out" || name = "image-extension"
  | .no_argument_allowed name => name = "quiet" || name = "help" || name = "verbose"
  | .unrecognized _ => false
  | .ambiguous _ _ => false

/-- The shape of a scanner result that does not end the scan: an error was
reported, of one of the listed causes, or an option of the program was
recognised (the codes are those of `o`, `c`, `q`, `h`, `v`, and 3 for
`countdown`). -/
def result_ok (r : getopt_result) : Prop :=
  (r.code = QUESTION ∧ ∃ e, r.error = some e ∧ listed_cause e = true) ∨
  (r.error = none ∧ (r.code = 111 ∨ (r.code = 99 ∧ r.optarg ≠ none) ∨ r.code = 113
      ∨ r.code = 104 ∨ r.code = 118 ∨ r.code = 3))

/-- What a call of the scanner can yield, as a property of the outcome: it
runs past the table, or it ends the scan, or it returns a stop or an option and
has used up part of the input. -/
def call_ok (budget : Nat) (rest : List String) (x : Except Fault getopt_result) : Prop :=
  x = .error .table_overrun
  ∨ ∃ r, x = .ok r
    ∧ ((r.code = -1 ∧ r.error = none)
      ∨ (result_ok r ∧ scan_budget r.data < budget ∧ r.data.rest <:+ rest ∧ r.code ≠ -1))

/-- The program name `argv[0]` (empty when `argc` is 0). -/
def progname (argv : List String) : String := argv.headD ""

/-- An element `-x...` whose first option character is none of `o`, `c`, `q`,
`h`, `v`: a group of short options that starts with an invalid one. Elements
that start with `--` are not of this kind. -/
def invalid_short (t : String) : Option Char :=
  match t.data with
  | '-' :: '-' :: _ => none
  | '-' :: c :: _ => if ['o', 'c', 'q', 'h', 'v'].contains c then none else some c
  | _ => none

/-- An element that the scanner can look up without leaving the table: either
it is no long option, or its name (the text between `--` and `=`) is exactly a
name of the table. -/
def exact_name (a : String) : Bool :=
  match a.data with
  | ['-', '-'] => true
  | '-' :: '-' :: n :: ns =>
    longoptions.entries.any (fun p => p.name.data = (n :: ns).takeWhile (fun x => x ≠ '='))
  | _ => true

/-- Whether a scanner result is a stop: the code of a help option or `'?'`. -/
def is_stop (r : getopt_result) : Bool :=
  decide (r.code = ('?'.toNat : Int) ∨ r.code = ('h'.toNat : Int))

/-- The scanner results of a scan that come before the first stop. -/
def before_stop (argv : List String) : List getopt_result :=
  (scan argv).takeWhile (fun r => !is_stop r)

/-- Field by field, `o2` holds the value of `o` or the value of `fin`. -/
def between (o o2 fin : xsr_options) : Prop :=
  (o2.outfile = o.outfile ∨ o2.outfile = fin.outfile)
  ∧ (o2.image_ext = o.image_ext ∨ o2.image_ext = fin.image_ext)
  ∧ (o2.quiet = o.quiet ∨ o2.quiet = fin.quiet)
  ∧ (o2.verbose = o.verbose ∨ o2.verbose = fin.verbose)
  ∧ (o2.mouse_icon = o.mouse_icon ∨ o2.mouse_icon = fin.mouse_icon)
  ∧ (o2.no_mouse = o.no_mouse ∨ o2.no_mouse = fin.no_mouse)
  ∧ (o2.countdown = o.countdown ∨ o2.countdown = fin.countdown)

instance (o o2 fin : xsr_options) : Decidable (between o o2 fin) := by
  unfold between
  infer_instance

/-! ## Facts about the scanner -/

theorem short_option_shortoptions (c : Char) (cs : List Char)
    (rest nonopts : List String) :
    short_option shortoptions c cs rest nonopts =
      if c = 'o' ∨ c = 'c' then
        (if cs ≠ [] then
          { code := c.toNat, optarg := some (String.mk cs), error := none,
            data := { rest := rest, nextchar := [], nonopts := nonopts } }
        else
          match rest with
          | [] =>
            { code := QUESTION, optarg := none, error := some (.requires_argument c),
              data := { rest := [], nextchar := [], nonopts := nonopts } }
          | a :: rest1 =>
            { code := c.toNat, optarg := some a, error := none,
              data := { rest := rest1, nextchar := [], nonopts := nonopts } })
      else if c = 'q' ∨ c = 'h' ∨ c = 'v' then
        { code := c.toNat, optarg := none, error := none,
          data := { rest := rest, nextchar := cs, nonopts := nonopts } }
      else
        { code := QUESTION, optarg := none, error := some (.invalid_option c),
          data := { rest := rest, nextchar := cs, nonopts := nonopts } } := by
  by_cases ho : c = 'o'
  · subst ho; simp [short_option, shortoptions, strchr]
  by_cases hc : c = 'c'
  · subst hc; simp [short_option, shortoptions, strchr]
  by_cases hq : c = 'q'
  · subst hq; simp [short_option, shortoptions, strchr]
  by_cases hh : c = 'h'
  · subst hh; simp [short_option, shortoptions, strchr]
  by_cases hv : c = 'v'
  · subst hv; simp [short_option, shortoptions, strchr]
  by_cases hcol : c = ':'
  · subst hcol; simp [short_option, shortoptions, strchr]
  simp [short_option, shortoptions, strchr, ho, hc, hq, hh, hv, hcol, Ne.symm ho,
    Ne.symm hc, Ne.symm hq, Ne.symm hh, Ne.symm hv, Ne.symm hcol]

theorem mem_longoptions {p : long_option} (h : p ∈ longoptions.entries) :
    (p.name = "out" ∧ p.val = 111 ∧ p.has_arg = 1)
      ∨ (p.name = "image-extension" ∧ p.val = 99 ∧ p.has_arg = 1)
      ∨ (p.name = "quiet" ∧ p.val = 113 ∧ p.has_arg = 0)
      ∨ (p.name = "help" ∧ p.val = 104 ∧ p.has_arg = 0)
      ∨ (p.name = "verbose" ∧ p.val = 118 ∧ p.has_arg = 0)
      ∨ (p.name = "countdown" ∧ p.val = 3 ∧ p.has_arg = 2) := by
  simp [longoptions] at h
  rcases h with h | h | h | h | h | h <;> subst h <;>
    simp [required_argument, no_argument, optional_argument]

theorem long_found_cases (p : long_option) (nameend : List Char)
    (rest nonopts : List String) :
    ((long_found p nameend rest nonopts).code = QUESTION
        ∧ (((long_found p nameend rest nonopts).error = some (.no_argument_allowed p.name)
              ∧ p.has_arg = 0)
          ∨ ((long_found p nameend rest nonopts).error = some (.long_requires_argument p.name)
              ∧ p.has_arg = 1))
        ∧ (long_found p nameend rest nonopts).data = ⟨rest, [], nonopts⟩) ∨
    ((long_found p nameend rest nonopts).code = p.val
        ∧ (long_found p nameend rest nonopts).error = none
        ∧ (p.has_arg = 1 → (long_found p nameend rest nonopts).optarg ≠ none)
        ∧ ((long_found p nameend rest nonopts).data = ⟨rest, [], nonopts⟩
          ∨ ∃ a rest1, rest = a :: rest1
              ∧ (long_found p nameend rest nonopts).data = ⟨rest1, [], nonopts⟩)) := by
  unfold long_found
  split
  · split
    · right; simp_all
    · left; simp_all [long_failure]
  · split
    · split
      · right; simp_all
      · left; simp_all [long_failure]
    · right; simp_all

theorem process_long_option_longoptions (nc : List Char) (rest nonopts : List String) :
    process_long_option longoptions nc rest nonopts = .error .table_overrun
    ∨ ∃ r, process_long_option longoptions nc rest nonopts = .ok r
      ∧ result_ok r
      ∧ scan_budget r.data ≤ scan_budget ⟨rest, [], nonopts⟩
      ∧ r.data.rest <:+ rest
      ∧ r.code ≠ -1 := by
  unfold process_long_option
  simp only []
  split
  · rename_i p hp
    right
    have hmem : p ∈ longoptions.entries := List.mem_of_find?_eq_some hp
    refine ⟨_, rfl, ?_⟩
    rcases long_found_cases p (List.dropWhile (fun x => x ≠ '=') nc) rest nonopts
      with ⟨h1, h2, h3⟩ | ⟨h1, h2, h3, h4⟩
    · refine ⟨Or.inl ⟨h1, ?_⟩, ?_, ?_, ?_⟩
      · rcases h2 with ⟨h2, ha⟩ | ⟨h2, ha⟩
        · refine ⟨_, h2, ?_⟩
          rcases mem_longoptions hmem with h | h | h | h | h | h <;>
            simp_all [listed_cause]
        · refine ⟨_, h2, ?_⟩
          rcases mem_longoptions hmem with h | h | h | h | h | h <;>
            simp_all [listed_cause]
      · rw [h3]
      · rw [h3]
      · rw [h1]; simp [QUESTION]
    · have hb : scan_budget (long_found p (List.dropWhile (fun x => x ≠ '=') nc) rest
            nonopts).data ≤ scan_budget ⟨rest, [], nonopts⟩
          ∧ (long_found p (List.dropWhile (fun x => x ≠ '=') nc) rest nonopts).data.rest
              <:+ rest := by
        rcases h4 with h4 | ⟨a, rest1, h4, h5⟩
        · rw [h4]; simp
        · rw [h5, h4]; simp [scan_budget]
      refine ⟨Or.inr ⟨h2, ?_⟩, hb.1, hb.2, ?_⟩
      · rw [h1]
        rcases mem_longoptions hmem with h | h | h | h | h | h <;> simp [h.2.1]
        simpa using h3 h.2.2
      · rw [h1]
        rcases mem_longoptions hmem with h | h | h | h | h | h <;> simp [h.2.1]
  · left
    simp [longoptions]

theorem short_option_cases (c : Char) (cs : List Char) (rest nonopts : List String) :
    result_ok (short_option shortoptions c cs rest nonopts)
      ∧ scan_budget (short_option shortoptions c cs rest nonopts).data
          ≤ scan_budget ⟨rest, cs, nonopts⟩
      ∧ (short_option shortoptions c cs rest nonopts).data.rest <:+ rest
      ∧ (short_option shortoptions c cs rest nonopts).code ≠ -1 := by
  rw [short_option_shortoptions]
  by_cases h1 : c = 'o' ∨ c = 'c'
  · rw [if_pos h1]
    by_cases h2 : cs ≠ []
    · rw [if_pos h2]
      rcases h1 with h1 | h1 <;> subst h1 <;> simp [result_ok, scan_budget]
    · rw [if_neg h2]
      cases rest with
      | nil =>
        rcases h1 with h1 | h1 <;> subst h1 <;>
          simp [result_ok, scan_budget, QUESTION, listed_cause]
      | cons a rest1 =>
        rcases h1 with h1 | h1 <;> subst h1 <;> simp [result_ok, scan_budget] <;> omega
  · rw [if_neg h1]
    by_cases h3 : c = 'q' ∨ c = 'h' ∨ c = 'v'
    · rw [if_pos h3]
      rcases h3 with h3 | h3 | h3 <;> subst h3 <;> simp [result_ok, scan_budget]
    · rw [if_neg h3]
      have h4 : c ≠ 'o' ∧ c ≠ 'c' ∧ c ≠ 'q' ∧ c ≠ 'h' ∧ c ≠ 'v' := by
        refine ⟨fun h => h1 (Or.inl h), fun h => h1 (Or.inr h), fun h => h3 (Or.inl h),
          fun h => h3 (Or.inr (Or.inl h)), fun h => h3 (Or.inr (Or.inr h))⟩
      simp [result_ok, scan_budget, QUESTION, listed_cause, h4]

theorem next_element_cons (a : String) (rest nonopts : List String) :
    next_element shortoptions longoptions (a :: rest) nonopts =
      match a.data with
      | ['-', '-'] =>
        .ok { code := -1, optarg := none, error := none,
              data := { rest := nonopts ++ rest, nextchar := [], nonopts := [] } }
      | '-' :: '-' :: n :: ns => process_long_option longoptions (n :: ns) rest nonopts
      | '-' :: c :: cs => .ok (short_option shortoptions c cs rest nonopts)
      | _ => next_element shortoptions longoptions rest (nonopts ++ [a]) := by
  rw [next_element]

theorem next_element_cases (rest : List String) :
    ∀ nonopts : List String,
      call_ok (scan_budget ⟨rest, [], nonopts⟩) rest
        (next_element shortoptions longoptions rest nonopts) := by
  induction rest with
  | nil => intro nonopts; right; exact ⟨_, rfl, Or.inl ⟨rfl, rfl⟩⟩
  | cons a rest ih =>
    intro nonopts
    rw [next_element_cons]
    split
    · right; exact ⟨_, rfl, Or.inl ⟨rfl, rfl⟩⟩
    · rename_i n ns _
      rcases process_long_option_longoptions (n :: ns) rest nonopts
        with h | ⟨r, h, h1, h2, h3, h4⟩
      · exact Or.inl h
      · right
        refine ⟨r, h, Or.inr ⟨h1, ?_, h3.trans (List.suffix_cons a rest), h4⟩⟩
        simp [scan_budget] at h2 ⊢
        omega
    · rename_i c cs _ _ hc
      right
      obtain ⟨h1, h2, h3, h4⟩ := short_option_cases c cs rest nonopts
      refine ⟨_, rfl, Or.inr ⟨h1, ?_, h3.trans (List.suffix_cons a rest), h4⟩⟩
      have hl : a.length = cs.length + 2 := by
        show a.data.length = _
        rw [hc]; simp
      simp [scan_budget] at h2 ⊢
      omega
    · rcases ih (nonopts ++ [a]) with h | ⟨r, h, hr⟩
      · exact Or.inl h
      · right
        refine ⟨r, h, ?_⟩
        rcases hr with hr | ⟨h1, h2, h3, h4⟩
        · exact Or.inl hr
        · refine Or.inr ⟨h1, ?_, h3.trans (List.suffix_cons a rest), h4⟩
          simp [scan_budget] at h2 ⊢
          omega

theorem getopt_long_cases (d : getopt_data) :
    call_ok (scan_budget d) d.rest (getopt_long shortoptions longoptions d) := by
  unfold getopt_long
  split
  · rename_i c cs hc
    right
    obtain ⟨h1, h2, h3, h4⟩ := short_option_cases c cs d.rest d.nonopts
    refine ⟨_, rfl, Or.inr ⟨h1, ?_, h3, h4⟩⟩
    simp [scan_budget, hc] at h2 ⊢
    omega
  · rename_i hc
    have := next_element_cases d.rest d.nonopts
    simpa [scan_budget, hc] using this

/-! ## Facts about the run of `parse_arguments` -/

theorem written_of_no_error (argv0 : String) (r : getopt_result) (h : r.error = none) :
    written argv0 r = [] := by
  simp [written, h]

theorem parse_loop_replay (argv0 : String) :
    ∀ (fuel : Nat) (d : getopt_data) (o : xsr_options) (cerr : List String),
      scan_budget d < fuel →
      parse_loop argv0 fuel d o cerr = replay argv0 (getopt_calls fuel d) o cerr := by
  intro fuel
  induction fuel with
  | zero => intro d o cerr h; omega
  | succ n ih =>
    intro d o cerr hb
    simp only [parse_loop, getopt_calls]
    rcases getopt_long_cases d with h | ⟨r, h, hr⟩
    · rw [h]
      rfl
    · rw [h]
      rcases hr with ⟨h1, h2⟩ | ⟨hok, hbud, -, hne⟩
      · simp [h1, written_of_no_error argv0 r h2, replay]
      · have hb1 : scan_budget r.data < n := by omega
        rcases hok with ⟨h1, -⟩ | ⟨h1, h | h | h | h | h | h⟩
        · simp [h1, QUESTION, replay]
        · simp [h, written_of_no_error argv0 r h1, replay, option_effect, ih _ _ _ hb1]
        · obtain ⟨h, h3⟩ := h
          obtain ⟨ext, hext⟩ := Option.ne_none_iff_exists'.mp h3
          simp [h, written_of_no_error argv0 r h1, hext, replay, option_effect,
            ih _ _ _ hb1]
        · simp [h, written_of_no_error argv0 r h1, replay, option_effect, ih _ _ _ hb1]
        · simp [h, written_of_no_error argv0 r h1, replay, option_effect]
        · simp [h, written_of_no_error argv0 r h1, replay, option_effect, ih _ _ _ hb1]
        · simp [h, written_of_no_error argv0 r h1, replay, option_effect, ih _ _ _ hb1]

theorem getopt_calls_fuel :
    ∀ (f g : Nat) (d : getopt_data), scan_budget d < f → scan_budget d < g →
      getopt_calls f d = getopt_calls g d := by
  intro f
  induction f with
  | zero => intro g d h; omega
  | succ n ih =>
    intro g d hf hg
    cases g with
    | zero => omega
    | succ m =>
      simp only [getopt_calls]
      rcases getopt_long_cases d with h | ⟨r, h, hr⟩
      · rw [h]
      · rw [h]
        rcases hr with ⟨h1, -⟩ | ⟨-, hbud, -, hne⟩
        · simp [h1]
        · simp only [hne, if_false]
          rw [ih m _ (by omega) (by omega)]

theorem parse_loop_fuel (argv0 : String) (f g : Nat) (d : getopt_data) (o : xsr_options)
    (cerr : List String) (hf : scan_budget d < f) (hg : scan_budget d < g) :
    parse_loop argv0 f d o cerr = parse_loop argv0 g d o cerr := by
  rw [parse_loop_replay argv0 f d o cerr hf, parse_loop_replay argv0 g d o cerr hg,
    getopt_calls_fuel f g d hf hg]

theorem getopt_calls_shape :
    ∀ (f : Nat) (d : getopt_data), scan_budget d < f →
      ∃ pre, (∀ r ∈ pre, result_ok r ∧ r.code ≠ -1)
        ∧ (getopt_calls f d = pre
          ∨ ∃ last, getopt_calls f d = pre ++ [last] ∧ last.code = -1 ∧ last.error = none) := by
  intro f
  induction f with
  | zero => intro d h; omega
  | succ n ih =>
    intro d hf
    simp only [getopt_calls]
    rcases getopt_long_cases d with h | ⟨r, h, hr⟩
    · rw [h]
      exact ⟨[], by simp, Or.inl rfl⟩
    · rw [h]
      rcases hr with ⟨h1, h2⟩ | ⟨hok, hbud, -, hne⟩
      · exact ⟨[], by simp, Or.inr ⟨r, by simp [h1], h1, h2⟩⟩
      · obtain ⟨pre, h4, h5⟩ := ih r.data (by omega)
        refine ⟨r :: pre, ?_, ?_⟩
        · intro x hx
          rcases List.mem_cons.mp hx with hx | hx
          · subst hx; exact ⟨hok, hne⟩
          · exact h4 x hx
        · rcases h5 with h5 | ⟨last, h5, h6, h7⟩
          · left; simp [hne, h5]
          · right; exact ⟨last, by simp [hne, h5], h6, h7⟩

theorem parse_arguments_replay (argv : List String) (o : xsr_options) :
    parse_arguments argv o = replay (progname argv) (scan argv) o [] := by
  cases argv with
  | nil => simp [parse_arguments, scan, replay, parse_tail]
  | cons argv0 args =>
    simp only [parse_arguments, scan, progname, List.headD_cons]
    exact parse_loop_replay argv0 _ _ o [] (Nat.lt_succ_self _)

theorem scan_shape (argv : List String) :
    ∃ pre, (∀ r ∈ pre, result_ok r ∧ r.code ≠ -1)
      ∧ scan_codes argv = pre.map (fun r => r.code)
      ∧ ((scan argv = pre ∧ completes argv = false)
        ∨ ∃ last, scan argv = pre ++ [last] ∧ last.code = -1 ∧ last.error = none
            ∧ completes argv = true ∧ operands argv = last.data.rest) := by
  have key : ∃ pre, (∀ r ∈ pre, result_ok r ∧ r.code ≠ -1)
      ∧ (scan argv = pre
        ∨ ∃ last, scan argv = pre ++ [last] ∧ last.code = -1 ∧ last.error = none) := by
    cases argv with
    | nil =>
      exact ⟨[], by simp, Or.inr ⟨(⟨-1, none, none, ⟨[], [], []⟩⟩ : getopt_result),
        by simp [scan], rfl, rfl⟩⟩
    | cons argv0 args => exact getopt_calls_shape _ _ (Nat.lt_succ_self _)
  obtain ⟨pre, h4, h⟩ := key
  have hfilter : ∀ l : List getopt_result, (∀ r ∈ l, r.code ≠ -1) →
      List.filter (fun k => decide (k ≠ -1)) (List.map (fun r => r.code) l)
        = List.map (fun r => r.code) l := by
    intro l hl
    apply List.filter_eq_self.mpr
    intro k hk
    obtain ⟨r, hr, rfl⟩ := List.mem_map.mp hk
    simpa using hl r hr
  have hpre := hfilter pre (fun r hr => (h4 r hr).2)
  rcases h with h | ⟨last, h1, h2, h3⟩
  · refine ⟨pre, h4, ?_, Or.inl ⟨h, ?_⟩⟩
    · simp only [scan_codes, h]
      exact hpre
    · simp only [completes, h]
      cases hl : pre.getLast? with
      | none => rfl
      | some x =>
        have hx : x ∈ pre := List.mem_of_getLast?_eq_some hl
        simpa using (h4 x hx).2
  · refine ⟨pre, h4, ?_, Or.inr ⟨last, h1, h2, h3, ?_, ?_⟩⟩
    · simp only [scan_codes, h1, List.map_append, List.filter_append, List.map_cons,
        List.map_nil]
      rw [hpre]
      simp [h2]
    · simp [completes, h1, h2]
    · simp [operands, h1]

theorem parse_tail_ret (ops : List String) (o : xsr_options) (cerr : List String) :
    (parse_tail ops o cerr).ret = false := by
  unfold parse_tail
  split
  · rfl
  · simp only []
    split <;> rfl

theorem replay_append (argv0 : String) (pre tail : List getopt_result) :
    ∀ (o : xsr_options) (cerr : List String),
      (∀ r ∈ pre, r.code ≠ -1 ∧ r.code ≠ 63 ∧ r.code ≠ 104) →
      replay argv0 (pre ++ tail) o cerr
        = replay argv0 tail (pre.foldl option_effect o) cerr := by
  induction pre with
  | nil => intro o cerr _; rfl
  | cons r pre ih =>
    intro o cerr h
    obtain ⟨h1, h2, h3⟩ := h r (List.mem_cons_self _ _)
    simp only [List.cons_append, replay, List.foldl_cons]
    simp [h1, h2, h3]
    exact ih _ _ (fun x hx => h x (List.mem_cons_of_mem _ hx))

theorem replay_ret (argv0 : String) (pre : List getopt_result) (tail : List getopt_result)
    (htail : tail = [] ∨ ∃ last, tail = [last] ∧ last.code = -1) :
    ∀ (o : xsr_options) (cerr : List String) (r : Outcome), (∀ x ∈ pre, x.code ≠ -1) →
      replay argv0 (pre ++ tail) o cerr = .ok r →
      (r.ret = true ↔ ∃ x ∈ pre, x.code = 63 ∨ x.code = 104)
      ∧ (r.ret = false → ∃ last, tail = [last] ∧ last.code = -1) := by
  induction pre with
  | nil =>
    intro o cerr r _ hr
    rcases htail with ht | ⟨last, ht, hl⟩
    · subst ht
      simp [replay] at hr
    · subst ht
      simp only [List.nil_append, replay, if_pos hl] at hr
      injection hr with hr
      subst hr
      simp [parse_tail_ret, hl]
  | cons x pre ih =>
    intro o cerr r h hr
    have h1 := h x (List.mem_cons_self _ _)
    simp only [List.cons_append, replay, if_neg h1] at hr
    by_cases hs : x.code = ('?'.toNat : Int) ∨ x.code = ('h'.toNat : Int)
    · rw [if_pos hs] at hr
      injection hr with hr
      subst hr
      have hs1 : x.code = 63 ∨ x.code = 104 := by simpa using hs
      simp [hs1]
    · rw [if_neg hs] at hr
      have hs1 : ¬ (x.code = 63 ∨ x.code = 104) := by simpa using hs
      obtain ⟨i1, i2⟩ := ih _ _ r (fun y hy => h y (List.mem_cons_of_mem _ hy)) hr
      refine ⟨?_, i2⟩
      rw [i1]
      simp [hs1]
theorem stops_eq_false_iff (argv : List String) (pre : List getopt_result)
    (h : scan_codes argv = pre.map (fun r => r.code)) :
    stops argv = false ↔ ∀ r ∈ pre, r.code ≠ 63 ∧ r.code ≠ 104 := by
  simp [stops, h]

theorem parse_arguments_of_clean_scan (argv : List String) (o : xsr_options)
    (hc : completes argv = true) (hs : stops argv = false) :
    ∃ (pre : List getopt_result) (last : getopt_result),
      scan argv = pre ++ [last] ∧ last.code = -1
      ∧ scan_codes argv = pre.map (fun r => r.code)
      ∧ parse_arguments argv o
          = .ok (parse_tail (operands argv) (pre.foldl option_effect o) []) := by
  obtain ⟨pre, h4, h5, h⟩ := scan_shape argv
  rcases h with ⟨-, h⟩ | ⟨last, h1, h2, -, -, h6⟩
  · rw [hc] at h
    exact Bool.noConfusion h
  · refine ⟨pre, last, h1, h2, h5, ?_⟩
    have hns := (stops_eq_false_iff argv pre h5).mp hs
    rw [parse_arguments_replay, h1, replay_append (progname argv) pre [last] o []
      (fun r hr => ⟨(h4 r hr).2, hns r hr⟩)]
    simp [replay, h2, h6]

theorem parse_tail_outfile (p : String) (ps : List String) (o : xsr_options)
    (cerr : List String) : (parse_tail (p :: ps) o cerr).options.outfile = some p := by
  unfold parse_tail
  simp only []
  split <;> rfl

theorem parse_tail_flags (ops : List String) (o : xsr_options) (cerr : List String) :
    (parse_tail ops o cerr).options.quiet = o.quiet
      ∧ (parse_tail ops o cerr).options.verbose = o.verbose := by
  unfold parse_tail
  split
  · exact ⟨rfl, rfl⟩
  · simp only []
    split <;> exact ⟨rfl, rfl⟩

theorem parse_tail_cerr (ops : List String) (o : xsr_options) :
    (parse_tail ops o []).cerr
      = if 2 ≤ ops.length ∧ (parse_tail ops o []).options.quiet = false
        then [spurious_warning] else [] := by
  cases ops with
  | nil => simp [parse_tail]
  | cons a ops1 =>
    cases ops1 with
    | nil => simp [parse_tail]
    | cons b ops2 =>
      cases hq : o.quiet <;> simp [parse_tail, hq]

theorem option_effect_exclusive (o : xsr_options) (r : getopt_result)
    (h : ¬ (o.quiet = true ∧ o.verbose = true)) :
    ¬ ((option_effect o r).quiet = true ∧ (option_effect o r).verbose = true) := by
  unfold option_effect
  split
  · exact h
  · split
    · exact h
    · split
      · simp
      · split
        · simp
        · exact h

theorem replay_exclusive (argv0 : String) (calls : List getopt_result) :
    ∀ (o : xsr_options) (cerr : List String) (r : Outcome),
      replay argv0 calls o cerr = .ok r → ¬ (o.quiet = true ∧ o.verbose = true) →
      ¬ (r.options.quiet = true ∧ r.options.verbose = true) := by
  induction calls with
  | nil =>
    intro o cerr r hr
    simp [replay] at hr
  | cons x calls ih =>
    intro o cerr r hr h
    rw [replay] at hr
    split at hr
    · injection hr with hr
      subst hr
      rw [(parse_tail_flags _ o cerr).1, (parse_tail_flags _ o cerr).2]
      exact h
    · split at hr
      · injection hr with hr
        subst hr
        exact h
      · exact ih _ _ r hr (option_effect_exclusive o x h)

theorem foldl_option_effect_flags (pre : List getopt_result) (o : xsr_options) (k : Int)
    (hk : ((pre.map (fun r => r.code)).filter
        (fun k => k = ('q'.toNat : Int) ∨ k = ('v'.toNat : Int))).getLast? = some k) :
    (k = ('v'.toNat : Int) → (pre.foldl option_effect o).verbose = true
        ∧ (pre.foldl option_effect o).quiet = false)
    ∧ (k = ('q'.toNat : Int) → (pre.foldl option_effect o).quiet = true
        ∧ (pre.foldl option_effect o).verbose = false) := by
  induction pre using List.reverseRecOn with
  | nil => simp at hk
  | append_singleton pre r ih =>
    simp only [List.foldl_append, List.foldl_cons, List.foldl_nil]
    simp only [List.map_append, List.filter_append, List.map_cons, List.map_nil] at hk
    by_cases hq : r.code = 113
    · have : k = 113 := by simpa [List.filter, hq] using hk.symm
      subst this
      simp [option_effect, hq]
    · by_cases hv : r.code = 118
      · have : k = 118 := by simpa [List.filter, hv] using hk.symm
        subst this
        simp [option_effect, hv]
      · have hk1 : (List.filter (fun k => decide (k = ('q'.toNat : Int) ∨ k = ('v'.toNat : Int)))
            (List.map (fun r => r.code) pre)).getLast? = some k := by
          simpa [List.filter, hq, hv] using hk
        have e : (option_effect (pre.foldl option_effect o) r).quiet
              = (pre.foldl option_effect o).quiet
            ∧ (option_effect (pre.foldl option_effect o) r).verbose
              = (pre.foldl option_effect o).verbose := by
          unfold option_effect
          split
          · exact ⟨rfl, rfl⟩
          · split
            · exact ⟨rfl, rfl⟩
            · simp [hq, hv]
        rw [e.1, e.2]
        exact ih hk1

theorem option_effect_frame (o : xsr_options) (r : getopt_result) :
    (option_effect o r).countdown = o.countdown
      ∧ (option_effect o r).mouse_icon = o.mouse_icon
      ∧ (option_effect o r).no_mouse = o.no_mouse := by
  unfold option_effect
  split
  · exact ⟨rfl, rfl, rfl⟩
  · split
    · exact ⟨rfl, rfl, rfl⟩
    · split
      · exact ⟨rfl, rfl, rfl⟩
      · split <;> exact ⟨rfl, rfl, rfl⟩

theorem parse_tail_frame (ops : List String) (o : xsr_options) (cerr : List String) :
    (parse_tail ops o cerr).options.countdown = o.countdown
      ∧ (parse_tail ops o cerr).options.mouse_icon = o.mouse_icon
      ∧ (parse_tail ops o cerr).options.no_mouse = o.no_mouse := by
  unfold parse_tail
  split
  · exact ⟨rfl, rfl, rfl⟩
  · simp only []
    split <;> exact ⟨rfl, rfl, rfl⟩

theorem replay_frame (argv0 : String) (calls : List getopt_result) :
    ∀ (o : xsr_options) (cerr : List String) (r : Outcome),
      replay argv0 calls o cerr = .ok r →
      r.options.countdown = o.countdown
        ∧ r.options.mouse_icon = o.mouse_icon
        ∧ r.options.no_mouse = o.no_mouse := by
  induction calls with
  | nil =>
    intro o cerr r hr
    simp [replay] at hr
  | cons x calls ih =>
    intro o cerr r hr
    rw [replay] at hr
    split at hr
    · injection hr with hr
      subst hr
      exact parse_tail_frame _ o cerr
    · split at hr
      · injection hr with hr
        subst hr
        exact ⟨rfl, rfl, rfl⟩
      · obtain ⟨h1, h2, h3⟩ := ih (option_effect o x) cerr r hr
        obtain ⟨e1, e2, e3⟩ := option_effect_frame o x
        exact ⟨h1.trans e1, h2.trans e2, h3.trans e3⟩

theorem foldl_option_effect_outfile (pre : List getopt_result) (o : xsr_options)
    (c : getopt_result)
    (hc : (pre.filter (fun r => r.code = ('o'.toNat : Int))).getLast? = some c) :
    (pre.foldl option_effect o).outfile = c.optarg := by
  induction pre using List.reverseRecOn with
  | nil => simp at hc
  | append_singleton pre r ih =>
    simp only [List.foldl_append, List.foldl_cons, List.foldl_nil]
    simp only [List.filter_append] at hc
    by_cases ho : r.code = 111
    · have : c = r := by simpa [List.filter, ho] using hc.symm
      subst this
      simp [option_effect, ho]
    · have hc1 : (pre.filter (fun r => r.code = ('o'.toNat : Int))).getLast? = some c := by
        simpa [List.filter, ho] using hc
      have e : (option_effect (pre.foldl option_effect o) r).outfile
          = (pre.foldl option_effect o).outfile := by
        unfold option_effect
        have ho1 : ¬ r.code = ('o'.toNat : Int) := by simpa using ho
        rw [if_neg ho1]
        split
        · rfl
        · split
          · rfl
          · split <;> rfl
      rw [e]
      exact ih hc1

theorem replay_stop_options (argv0 : String) (calls : List getopt_result) :
    ∀ (o : xsr_options) (cerr : List String) (r : Outcome),
      replay argv0 calls o cerr = .ok r → r.ret = true →
      r.options = (calls.takeWhile (fun r => !is_stop r)).foldl option_effect o := by
  induction calls with
  | nil =>
    intro o cerr r hr
    simp [replay] at hr
  | cons x calls ih =>
    intro o cerr r hr h
    by_cases hne : x.code = -1
    · simp only [replay, if_pos hne] at hr
      injection hr with hr
      subst hr
      rw [parse_tail_ret] at h
      exact Bool.noConfusion h
    · by_cases hs : x.code = ('?'.toNat : Int) ∨ x.code = ('h'.toNat : Int)
      · simp only [replay, if_neg hne, if_pos hs] at hr
        injection hr with hr
        subst hr
        have : is_stop x = true := by simpa [is_stop] using hs
        simp [List.takeWhile_cons, this]
      · simp only [replay, if_neg hne, if_neg hs] at hr
        have : is_stop x = false := by simpa [is_stop] using hs
        simp only [List.takeWhile_cons, this, Bool.not_false, if_true, List.foldl_cons]
        exact ih _ _ r hr h

theorem replay_stop_cerr (argv0 : String) (calls : List getopt_result) :
    ∀ (o o2 : xsr_options) (cerr : List String) (r : Outcome),
      replay argv0 calls o cerr = .ok r → r.ret = true →
      (∃ r2, replay argv0 calls o2 cerr = .ok r2 ∧ r2.ret = true ∧ r2.cerr = r.cerr)
        ∧ r.cerr.getLast? = some (show_help argv0) := by
  induction calls with
  | nil =>
    intro o o2 cerr r hr
    simp [replay] at hr
  | cons x calls ih =>
    intro o o2 cerr r hr h
    by_cases hne : x.code = -1
    · simp only [replay, if_pos hne] at hr
      injection hr with hr
      subst hr
      rw [parse_tail_ret] at h
      exact Bool.noConfusion h
    · by_cases hs : x.code = ('?'.toNat : Int) ∨ x.code = ('h'.toNat : Int)
      · simp only [replay, if_neg hne, if_pos hs] at hr ⊢
        injection hr with hr
        subst hr
        exact ⟨⟨_, rfl, rfl, rfl⟩, by simp⟩
      · simp only [replay, if_neg hne, if_neg hs] at hr ⊢
        exact ih _ _ _ r hr h

section
set_option maxRecDepth 100000

theorem show_help_first_line (progname : String) :
    ∃ more, show_help progname = "Usage: " ++ progname ++ " [options] [outfile]\n" ++ more := by
  refine ⟨"where options are:\n\n--out|-o outfile\t\tWrite data to outfile instead of \n\t\t\t\t\"Untitled Recording.html\"\n\n--image-extension|-c ext\tUse the image format with extension ext. \n\t\t\t\tDefault: png; supported: png\n\n--quiet|-q\t\t\tDo not print to stdout. Implied by \"-o -\"\n\n--verbose|-v\t\t\tPrint detailed information to stdout;\n\n--countdown sec\t\t\tWait sec seconds before beginning to record.\n\t\t\t\tDefault 5\n\nhttps://github.com/nonnymoose/xsr\n", ?_⟩
  unfold show_help
  rw [String.append_assoc, String.append_assoc, String.append_assoc, String.append_assoc]
  rfl

end

theorem xsr_options_ext {a b : xsr_options} (h1 : a.outfile = b.outfile)
    (h2 : a.image_ext = b.image_ext) (h3 : a.quiet = b.quiet) (h4 : a.verbose = b.verbose)
    (h5 : a.mouse_icon = b.mouse_icon) (h6 : a.no_mouse = b.no_mouse)
    (h7 : a.countdown = b.countdown) : a = b := by
  cases a
  cases b
  simp only [xsr_options.mk.injEq]
  exact ⟨h1, h2, h3, h4, h5, h6, h7⟩

theorem between_self (o o2 : xsr_options) (h : between o o2 o) : o2 = o := by
  obtain ⟨h1, h2, h3, h4, h5, h6, h7⟩ := h
  exact xsr_options_ext (h1.elim id id) (h2.elim id id) (h3.elim id id) (h4.elim id id)
    (h5.elim id id) (h6.elim id id) (h7.elim id id)

theorem option_effect_between (o o2 fin : xsr_options) (r : getopt_result)
    (h : between o o2 fin) : between (option_effect o r) (option_effect o2 r) fin := by
  obtain ⟨h1, h2, h3, h4, h5, h6, h7⟩ := h
  unfold option_effect
  split
  · exact ⟨Or.inl rfl, h2, h3, h4, h5, h6, h7⟩
  · split
    · cases r.optarg with
      | none => exact ⟨h1, h2, h3, h4, h5, h6, h7⟩
      | some ext => exact ⟨h1, Or.inl rfl, h3, h4, h5, h6, h7⟩
    · split
      · exact ⟨h1, h2, Or.inl rfl, Or.inl rfl, h5, h6, h7⟩
      · split
        · exact ⟨h1, h2, Or.inl rfl, Or.inl rfl, h5, h6, h7⟩
        · exact ⟨h1, h2, h3, h4, h5, h6, h7⟩

theorem parse_tail_between (ops : List String) (o o2 : xsr_options) (cerr : List String)
    (h : between o o2 (parse_tail ops o cerr).options) :
    parse_tail ops o2 cerr = parse_tail ops o cerr := by
  cases ops with
  | nil =>
    have : o2 = o := between_self o o2 h
    rw [this]
  | cons a ops1 =>
    obtain ⟨-, h2, h3, h4, h5, h6, h7⟩ := h
    have e2 : o2.image_ext = o.image_ext := by
      rcases h2 with h2 | h2
      · exact h2
      · rw [h2]; unfold parse_tail; simp only []; split <;> rfl
    have e3 : o2.quiet = o.quiet := by
      rcases h3 with h3 | h3
      · exact h3
      · rw [h3]; exact (parse_tail_flags _ _ _).1
    have e4 : o2.verbose = o.verbose := by
      rcases h4 with h4 | h4
      · exact h4
      · rw [h4]; exact (parse_tail_flags _ _ _).2
    have e5 : o2.mouse_icon = o.mouse_icon := by
      rcases h5 with h5 | h5
      · exact h5
      · rw [h5]; exact (parse_tail_frame _ _ _).2.1
    have e6 : o2.no_mouse = o.no_mouse := by
      rcases h6 with h6 | h6
      · exact h6
      · rw [h6]; exact (parse_tail_frame _ _ _).2.2
    have e7 : o2.countdown = o.countdown := by
      rcases h7 with h7 | h7
      · exact h7
      · rw [h7]; exact (parse_tail_frame _ _ _).1
    unfold parse_tail
    simp only [e2, e3, e4, e5, e6, e7]

theorem replay_between (argv0 : String) (calls : List getopt_result) :
    ∀ (o o2 : xsr_options) (cerr : List String) (r : Outcome),
      replay argv0 calls o cerr = .ok r → between o o2 r.options →
      replay argv0 calls o2 cerr = .ok r := by
  induction calls with
  | nil =>
    intro o o2 cerr r hr
    simp [replay] at hr
  | cons x calls ih =>
    intro o o2 cerr r hr h
    by_cases hne : x.code = -1
    · simp only [replay, if_pos hne] at hr ⊢
      injection hr with hr
      subst hr
      rw [parse_tail_between _ o o2 cerr h]
    · by_cases hs : x.code = ('?'.toNat : Int) ∨ x.code = ('h'.toNat : Int)
      · simp only [replay, if_neg hne, if_pos hs] at hr ⊢
        injection hr with hr
        subst hr
        rw [between_self o o2 h]
      · simp only [replay, if_neg hne, if_neg hs] at hr ⊢
        exact ih _ _ _ r hr (option_effect_between o o2 _ x h)

theorem between_final (o fin : xsr_options) : between o fin fin :=
  ⟨Or.inr rfl, Or.inr rfl, Or.inr rfl, Or.inr rfl, Or.inr rfl, Or.inr rfl, Or.inr rfl⟩

theorem getopt_long_code (d : getopt_data) (r : getopt_result)
    (h : getopt_long shortoptions longoptions d = .ok r) :
    r.code = -1 ∨ r.code = 63 ∨ r.code = 111 ∨ r.code = 99 ∨ r.code = 113
      ∨ r.code = 104 ∨ r.code = 118 ∨ r.code = 3 := by
  rcases getopt_long_cases d with h1 | ⟨x, h1, hx⟩
  · rw [h1] at h
    exact Except.noConfusion h
  · rw [h1] at h
    injection h with h
    subst h
    rcases hx with ⟨hx, -⟩ | ⟨hx, -⟩
    · exact Or.inl hx
    · rcases hx with ⟨hx, -⟩ | ⟨-, hx | ⟨hx, -⟩ | hx | hx | hx | hx⟩
      · right; left; simpa [QUESTION] using hx
      · simp [hx]
      · simp [hx]
      · simp [hx]
      · simp [hx]
      · simp [hx]
      · simp [hx]

theorem short_option_extend (c : Char) (cs : List Char) (rest nonopts extra : List String) :
    (short_option shortoptions c cs rest nonopts).code = QUESTION
      ∨ short_option shortoptions c cs (rest ++ extra) nonopts
          = (short_option shortoptions c cs rest nonopts).extend extra := by
  rw [short_option_shortoptions, short_option_shortoptions]
  by_cases h1 : c = 'o' ∨ c = 'c'
  · rw [if_pos h1, if_pos h1]
    by_cases h2 : cs ≠ []
    · rw [if_pos h2, if_pos h2]
      right; rfl
    · rw [if_neg h2, if_neg h2]
      cases rest with
      | nil => left; rfl
      | cons a rest1 => right; rfl
  · rw [if_neg h1, if_neg h1]
    by_cases h3 : c = 'q' ∨ c = 'h' ∨ c = 'v'
    · rw [if_pos h3, if_pos h3]
      right; rfl
    · rw [if_neg h3, if_neg h3]
      left; rfl

theorem long_found_extend (p : long_option) (nameend : List Char)
    (rest nonopts extra : List String) :
    (long_found p nameend rest nonopts).code = QUESTION
      ∨ long_found p nameend (rest ++ extra) nonopts
          = (long_found p nameend rest nonopts).extend extra := by
  unfold long_found
  cases nameend with
  | cons e value =>
    simp only []
    split
    · right; rfl
    · left; rfl
  | nil =>
    simp only []
    split
    · cases rest with
      | nil => left; rfl
      | cons a rest1 => right; rfl
    · right; rfl

theorem process_long_option_extend (lo : option_table) (nc : List Char)
    (rest nonopts extra : List String) (r : getopt_result)
    (h : process_long_option lo nc rest nonopts = .ok r) :
    r.code = QUESTION
      ∨ process_long_option lo nc (rest ++ extra) nonopts = .ok (r.extend extra) := by
  unfold process_long_option at h ⊢
  simp only [] at h ⊢
  split at h
  · rename_i p hp
    injection h with h
    subst h
    rcases long_found_extend p (List.dropWhile (fun x => x ≠ '=') nc) rest nonopts extra
      with e | e
    · exact Or.inl e
    · right
      rw [e]
  · by_cases ht : lo.terminated = false
    · rw [if_pos ht] at h
      exact Except.noConfusion h
    · rw [if_neg ht] at h ⊢
      split at h
      · injection h with h
        subst h
        left; rfl
      · rename_i p ps hf
        split at h
        · injection h with h
          subst h
          left; rfl
        · rename_i ha
          injection h with h
          subst h
          rcases long_found_extend p (List.dropWhile (fun x => x ≠ '=') nc) rest nonopts
            extra with e | e
          · exact Or.inl e
          · right
            rw [e, if_neg ha]

theorem data_eq_dashes {a : String} (h : a.data = ['-', '-']) : a = "--" := by
  cases a
  simp only at h
  subst h
  rfl

theorem next_element_extend (extra rest : List String) :
    ∀ (nonopts : List String) (r : getopt_result), "--" ∉ rest →
    next_element shortoptions longoptions rest nonopts = .ok r →
    (r.code = -1
        ∧ next_element shortoptions longoptions (rest ++ extra) nonopts
            = next_element shortoptions longoptions extra r.data.rest)
    ∨ r.code = QUESTION
    ∨ (r.code ≠ -1
        ∧ next_element shortoptions longoptions (rest ++ extra) nonopts
            = .ok (r.extend extra)) := by
  induction rest with
  | nil =>
    intro nonopts r _ h
    simp only [next_element] at h
    injection h with h
    subst h
    left
    exact ⟨rfl, rfl⟩
  | cons a rest ih =>
    intro nonopts r hn h
    have ha : a ≠ "--" := fun h => hn (h ▸ List.mem_cons_self _ _)
    have hr : "--" ∉ rest := fun h => hn (List.mem_cons_of_mem _ h)
    rw [next_element_cons] at h
    rw [List.cons_append, next_element_cons a (rest ++ extra)]
    split at h
    · rename_i hd
      exact absurd (data_eq_dashes hd) ha
    · rename_i n ns _
      have hcode : r.code ≠ -1 := by
        rcases process_long_option_longoptions (n :: ns) rest nonopts with e | ⟨x, e, ex⟩
        · rw [e] at h
          exact Except.noConfusion h
        · rw [e] at h
          injection h with h
          subst h
          exact ex.2.2.2
      rcases process_long_option_extend longoptions (n :: ns) rest nonopts extra r h
        with e | e
      · exact Or.inr (Or.inl e)
      · exact Or.inr (Or.inr ⟨hcode, e⟩)
    · rename_i c cs _ _ _
      injection h with h
      subst h
      rcases short_option_extend c cs rest nonopts extra with e | e
      · exact Or.inr (Or.inl e)
      · exact Or.inr (Or.inr ⟨(short_option_cases c cs rest nonopts).2.2.2, by rw [e]⟩)
    · exact ih (nonopts ++ [a]) r hr h

theorem getopt_long_extend (extra : List String) (d : getopt_data) (r : getopt_result)
    (hn : "--" ∉ d.rest) (h : getopt_long shortoptions longoptions d = .ok r) :
    (r.code = -1
        ∧ getopt_long shortoptions longoptions (d.extend extra)
            = getopt_long shortoptions longoptions ⟨extra, [], r.data.rest⟩)
    ∨ r.code = QUESTION
    ∨ (r.code ≠ -1
        ∧ getopt_long shortoptions longoptions (d.extend extra) = .ok (r.extend extra)) := by
  unfold getopt_long at h ⊢
  cases hc : d.nextchar with
  | cons c cs =>
    simp only [getopt_data.extend, hc] at h ⊢
    injection h with h
    subst h
    rcases short_option_extend c cs d.rest d.nonopts extra with e | e
    · exact Or.inr (Or.inl e)
    · exact Or.inr (Or.inr ⟨(short_option_cases c cs d.rest d.nonopts).2.2.2, by rw [e]⟩)
  | nil =>
    simp only [getopt_data.extend, hc] at h ⊢
    exact next_element_extend extra d.rest d.nonopts r hn h

theorem scan_budget_extend (d : getopt_data) (extra : List String) :
    scan_budget (d.extend extra) = scan_budget d + scan_budget ⟨extra, [], []⟩ := by
  simp [scan_budget, getopt_data.extend]
  omega

theorem scan_budget_fresh (extra ops : List String) :
    scan_budget ⟨extra, [], ops⟩ = scan_budget ⟨extra, [], []⟩ := by
  simp [scan_budget]

theorem getopt_calls_extend (extra : List String) :
    ∀ (f : Nat) (d : getopt_data) (pre : List getopt_result) (last : getopt_result),
      scan_budget d < f → "--" ∉ d.rest →
      getopt_calls f d = pre ++ [last] → last.code = -1 →
      (∀ r ∈ pre, r.code ≠ QUESTION ∧ r.code ≠ -1) →
      ∀ g h : Nat, scan_budget (d.extend extra) < g →
        scan_budget ⟨extra, [], last.data.rest⟩ < h →
        getopt_calls g (d.extend extra)
          = pre.map (fun r => r.extend extra)
            ++ getopt_calls h ⟨extra, [], last.data.rest⟩ := by
  intro f
  induction f with
  | zero => intro d pre last h; omega
  | succ n ih =>
    intro d pre last hf hn hcalls hlast hpre g h hg hh
    rw [getopt_calls] at hcalls
    rcases getopt_long_cases d with e | ⟨r, e, er⟩
    · rw [e] at hcalls
      simp at hcalls
    · rw [e] at hcalls
      simp only [] at hcalls
      by_cases hr : r.code = -1
      · rw [if_pos hr] at hcalls
        have hpre0 : pre = [] := by
          cases pre with
          | nil => rfl
          | cons x xs =>
            have := congrArg List.length hcalls
            simp at this
        subst hpre0
        have hl : last = r := by simpa using hcalls.symm
        subst hl
        rcases getopt_long_extend extra d last hn e with ⟨-, e2⟩ | e2 | ⟨e2, -⟩
        · cases g with
          | zero => omega
          | succ m =>
            cases h with
            | zero => omega
            | succ k =>
              simp only [List.map_nil, List.nil_append]
              rw [getopt_calls, getopt_calls, e2]
              rcases getopt_long_cases ⟨extra, [], last.data.rest⟩ with x | ⟨y, x, ey⟩
              · rw [x]
              · rw [x]
                simp only []
                rcases ey with ⟨ey, -⟩ | ⟨-, ey, -, hne⟩
                · simp [ey]
                · simp only [hne, if_false]
                  congr 1
                  rw [scan_budget_extend] at hg
                  rw [scan_budget_fresh] at hh ey
                  exact getopt_calls_fuel _ _ _ (by omega) (by omega)
        · rw [hr] at e2
          simp [QUESTION] at e2
        · exact absurd hr e2
      · rw [if_neg hr] at hcalls
        cases pre with
        | nil =>
          simp at hcalls
          rw [← hcalls.1] at hlast
          exact absurd hlast hr
        | cons x xs =>
          simp only [List.cons_append, List.cons.injEq] at hcalls
          obtain ⟨hx, hxs⟩ := hcalls
          subst hx
          have hq := (hpre r (List.mem_cons_self _ _)).1
          rcases er with ⟨er, -⟩ | ⟨-, hbud, hsuf, -⟩
          · exact absurd er hr
          · have hn1 : "--" ∉ r.data.rest := fun hm => hn (hsuf.subset hm)
            rcases getopt_long_extend extra d r hn e with ⟨e2, -⟩ | e2 | ⟨-, e2⟩
            · exact absurd e2 hr
            · exact absurd e2 hq
            · cases g with
              | zero => omega
              | succ m =>
                rw [getopt_calls, e2]
                have hc : (getopt_result.extend r extra).code ≠ -1 := hr
                simp only [if_neg hc, List.map_cons, List.cons_append]
                congr 1
                apply ih r.data xs last (by omega) hn1 hxs hlast
                  (fun y hy => hpre y (List.mem_cons_of_mem _ hy)) m h _ hh
                show scan_budget (r.data.extend extra) < m
                have := scan_budget_extend r.data extra
                rw [scan_budget_extend] at hg
                omega

theorem extend_code (r : getopt_result) (extra : List String) :
    (r.extend extra).code = r.code := rfl

theorem foldl_option_effect_extend (extra : List String) (pre : List getopt_result) :
    ∀ o : xsr_options,
      (pre.map (fun r => r.extend extra)).foldl option_effect o = pre.foldl option_effect o := by
  induction pre with
  | nil => intro o; rfl
  | cons r pre ih =>
    intro o
    simp only [List.map_cons, List.foldl_cons]
    rw [show option_effect o (r.extend extra) = option_effect o r from rfl]
    exact ih _

theorem parse_arguments_after_prefix (prog : String) (pre extra : List String)
    (o : xsr_options) (hn : "--" ∉ pre)
    (hpre : ∃ r0, parse_arguments (prog :: pre) o = .ok r0 ∧ r0.ret = false) :
    ∃ (o1 : xsr_options) (ops : List String),
      parse_arguments (prog :: (pre ++ extra)) o
        = replay prog (getopt_calls (scan_budget ⟨extra, [], ops⟩ + 1) ⟨extra, [], ops⟩) o1 [] := by
  obtain ⟨r0, h0, hret⟩ := hpre
  rw [parse_arguments_replay] at h0
  have hscan : scan (prog :: pre)
      = getopt_calls (scan_budget ⟨pre, [], []⟩ + 1) ⟨pre, [], []⟩ := rfl
  obtain ⟨c0, s4, s1⟩ :=
    getopt_calls_shape (scan_budget ⟨pre, [], []⟩ + 1) ⟨pre, [], []⟩ (Nat.lt_succ_self _)
  have key : ∃ tail, scan (prog :: pre) = c0 ++ tail
      ∧ (tail = [] ∨ ∃ last, tail = [last] ∧ last.code = -1) := by
    rcases s1 with s1 | ⟨last, s1, s2, -⟩
    · exact ⟨[], by rw [hscan, s1]; simp, Or.inl rfl⟩
    · exact ⟨[last], by rw [hscan, s1], Or.inr ⟨last, rfl, s2⟩⟩
  obtain ⟨tail, hs, ht⟩ := key
  rw [hs] at h0
  obtain ⟨i1, i2⟩ := replay_ret (progname (prog :: pre)) c0 tail ht o [] r0
    (fun x hx => (s4 x hx).2) h0
  obtain ⟨last, htl, hlast⟩ := i2 hret
  subst htl
  have hnostop : ∀ r ∈ c0, ¬ (r.code = 63 ∨ r.code = 104) := by
    intro r hr hstop
    have := i1.mpr ⟨r, hr, hstop⟩
    rw [hret] at this
    exact Bool.noConfusion this
  have hq : ∀ r ∈ c0, r.code ≠ QUESTION ∧ r.code ≠ -1 := by
    intro r hr
    refine ⟨fun h => hnostop r hr (Or.inl (by simpa [QUESTION] using h)), (s4 r hr).2⟩
  have e4 := getopt_calls_extend extra _ ⟨pre, [], []⟩ c0 last (Nat.lt_succ_self _) hn
    (hscan ▸ hs) hlast hq
  refine ⟨c0.foldl option_effect o, last.data.rest, ?_⟩
  rw [parse_arguments_replay]
  have hscan2 : scan (prog :: (pre ++ extra))
      = getopt_calls (scan_budget (getopt_data.extend ⟨pre, [], []⟩ extra) + 1)
          (getopt_data.extend ⟨pre, [], []⟩ extra) := rfl
  rw [hscan2, e4 _ _ (Nat.lt_succ_self _) (Nat.lt_succ_self _)]
  simp only [progname, List.headD_cons]
  rw [replay_append, foldl_option_effect_extend]
  intro r hr
  obtain ⟨x, hx, rfl⟩ := List.mem_map.mp hr
  rw [extend_code]
  have := hnostop x hx
  exact ⟨(s4 x hx).2, fun h => this (Or.inl h), fun h => this (Or.inr h)⟩

theorem getopt_long_help_short (post ops : List String) :
    getopt_long shortoptions longoptions ⟨"-h" :: post, [], ops⟩
      = .ok ⟨104, none, none, ⟨post, [], ops⟩⟩ := rfl

theorem getopt_long_help_long (post ops : List String) :
    getopt_long shortoptions longoptions ⟨"--help" :: post, [], ops⟩
      = .ok ⟨104, none, none, ⟨post, [], ops⟩⟩ := rfl

theorem invalid_short_data (t : String) (c : Char) (ht : invalid_short t = some c) :
    ∃ cs, t.data = '-' :: c :: cs ∧ c ≠ '-'
      ∧ c ≠ 'o' ∧ c ≠ 'c' ∧ c ≠ 'q' ∧ c ≠ 'h' ∧ c ≠ 'v' := by
  unfold invalid_short at ht
  split at ht
  · exact Option.noConfusion ht
  · rename_i x cs h1 hd
    split at ht
    · exact Option.noConfusion ht
    · rename_i hx
      injection ht with ht
      subst ht
      refine ⟨cs, hd, ?_, by simpa using hx⟩
      intro hx2
      subst hx2
      simp at h1
  · exact Option.noConfusion ht

theorem getopt_long_invalid_short (t : String) (c : Char) (post ops : List String)
    (ht : invalid_short t = some c) :
    getopt_long shortoptions longoptions ⟨t :: post, [], ops⟩
      = .ok ⟨63, none, some (.invalid_option c), ⟨post, t.data.drop 2, ops⟩⟩ := by
  obtain ⟨cs, hd, hdash, hc⟩ := invalid_short_data t c ht
  have hg : getopt_long shortoptions longoptions ⟨t :: post, [], ops⟩
      = next_element shortoptions longoptions (t :: post) ops := rfl
  rw [hg, next_element_cons, hd]
  have hm : (match ('-' :: c :: cs : List Char) with
      | ['-', '-'] =>
        (.ok { code := -1, optarg := none, error := none,
               data := { rest := ops ++ post, nextchar := [], nonopts := [] } }
          : Except Fault getopt_result)
      | '-' :: '-' :: n :: ns => process_long_option longoptions (n :: ns) post ops
      | '-' :: c :: cs => .ok (short_option shortoptions c cs post ops)
      | _ => next_element shortoptions longoptions post (ops ++ [t]))
      = .ok (short_option shortoptions c cs post ops) := by
    split
    · simp_all
    · simp_all
    · simp_all
    · simp_all
  rw [hm, short_option_shortoptions]
  simp [hc, QUESTION]

theorem parse_arguments_stop_token (prog : String) (pre : List String) (t : String)
    (post : List String) (o : xsr_options) (hn : "--" ∉ pre)
    (hpre : ∃ r0, parse_arguments (prog :: pre) o = .ok r0 ∧ r0.ret = false)
    (ht : ∀ ops, ∃ x, getopt_long shortoptions longoptions ⟨t :: post, [], ops⟩ = .ok x
      ∧ (x.code = 63 ∨ x.code = 104)) :
    ∃ r, parse_arguments (prog :: (pre ++ t :: post)) o = .ok r ∧ r.ret = true
      ∧ ∃ ops x, getopt_long shortoptions longoptions ⟨t :: post, [], ops⟩ = .ok x
          ∧ r.cerr = written prog x ++ [show_help prog] := by
  obtain ⟨o1, ops, h⟩ := parse_arguments_after_prefix prog pre (t :: post) o hn hpre
  obtain ⟨x, hx, hs⟩ := ht ops
  rw [h, getopt_calls, hx]
  have hne : x.code ≠ -1 := by
    rcases hs with hs | hs <;> rw [hs] <;> decide
  have hs1 : x.code = ('?'.toNat : Int) ∨ x.code = ('h'.toNat : Int) := hs
  simp only [hne, if_false, replay, if_pos hs1]
  exact ⟨_, rfl, rfl, ops, x, hx, by simp⟩

theorem next_element_ok (rest : List String) :
    ∀ nonopts : List String, (∀ a ∈ rest, exact_name a = true) →
      ∃ r, next_element shortoptions longoptions rest nonopts = .ok r := by
  induction rest with
  | nil => intro nonopts _; exact ⟨_, rfl⟩
  | cons a rest ih =>
    intro nonopts h
    have ha := h a (List.mem_cons_self _ _)
    rw [next_element_cons]
    split
    · exact ⟨_, rfl⟩
    · rename_i n ns hd
      unfold exact_name at ha
      rw [hd] at ha
      simp only [] at ha
      obtain ⟨p, hp, hname⟩ := List.any_eq_true.mp ha
      unfold process_long_option
      simp only []
      cases hf : List.find? (fun p => decide (p.name.data
          = List.takeWhile (fun x => decide (x ≠ '=')) (n :: ns))) longoptions.entries with
      | some q => exact ⟨_, rfl⟩
      | none =>
        have := List.find?_eq_none.mp hf p hp
        exact absurd hname this
    · exact ⟨_, rfl⟩
    · exact ih _ (fun x hx => h x (List.mem_cons_of_mem _ hx))

theorem getopt_calls_complete :
    ∀ (f : Nat) (d : getopt_data), scan_budget d < f →
      (∀ a ∈ d.rest, exact_name a = true) →
      ∃ x ∈ getopt_calls f d, x.code = -1 := by
  intro f
  induction f with
  | zero => intro d h; omega
  | succ n ih =>
    intro d hf h
    have hok : ∃ r, getopt_long shortoptions longoptions d = .ok r := by
      unfold getopt_long
      split
      · exact ⟨_, rfl⟩
      · exact next_element_ok d.rest d.nonopts h
    obtain ⟨r, hr⟩ := hok
    rw [getopt_calls, hr]
    simp only []
    rcases getopt_long_cases d with e | ⟨x, e, ex⟩
    · rw [e] at hr
      exact Except.noConfusion hr
    · rw [e] at hr
      injection hr with hr
      subst hr
      rcases ex with ⟨ex, -⟩ | ⟨-, hbud, hsuf, hne⟩
      · exact ⟨x, by simp [ex], ex⟩
      · obtain ⟨y, hy, hy1⟩ := ih x.data (by omega) (fun a ha => h a (hsuf.subset ha))
        exact ⟨y, by simp [hne, hy], hy1⟩

theorem replay_returns (argv0 : String) (calls : List getopt_result) :
    ∀ (o : xsr_options) (cerr : List String), (∃ x ∈ calls, x.code = -1) →
      ∃ r, replay argv0 calls o cerr = .ok r := by
  induction calls with
  | nil => intro o cerr h; simp at h
  | cons x calls ih =>
    intro o cerr h
    rw [replay]
    split
    · exact ⟨_, rfl⟩
    · rename_i hne
      split
      · exact ⟨_, rfl⟩
      · obtain ⟨y, hy, hy1⟩ := h
        rcases List.mem_cons.mp hy with hy | hy
        · subst hy; exact absurd hy1 hne
        · exact ih _ _ ⟨y, hy, hy1⟩

theorem parse_arguments_returns (argv : List String) (o : xsr_options)
    (h : argv.tail.all exact_name = true) :
    ∃ r, parse_arguments argv o = .ok r := by
  rw [parse_arguments_replay]
  apply replay_returns
  cases argv with
  | nil => exact ⟨_, List.mem_singleton.mpr rfl, rfl⟩
  | cons argv0 args =>
    exact getopt_calls_complete _ _ (Nat.lt_succ_self _)
      (fun a ha => List.all_eq_true.mp h a ha)

theorem open_table_overrun (o : xsr_options) :
    parse_arguments ["xsr", "--bogus"] o = .error Fault.table_overrun
    ∧ parse_arguments ["xsr", "--verb"] o = .error Fault.table_overrun :=
  ⟨rfl, rfl⟩

theorem stop_cause_listed (x : getopt_result) (hx : result_ok x)
    (hc : x.code = 63) :
    (∃ c, x.error = some (.invalid_option c)
        ∧ c ≠ 'o' ∧ c ≠ 'c' ∧ c ≠ 'q' ∧ c ≠ 'h' ∧ c ≠ 'v')
      ∨ x.error = some (.requires_argument 'o')
      ∨ x.error = some (.requires_argument 'c')
      ∨ x.error = some (.long_requires_argument "out")
      ∨ x.error = some (.long_requires_argument "image-extension")
      ∨ x.error = some (.no_argument_allowed "quiet")
      ∨ x.error = some (.no_argument_allowed "help")
      ∨ x.error = some (.no_argument_allowed "verbose") := by
  rcases hx with ⟨-, e, he, hl⟩ | ⟨-, h⟩
  · rw [he]
    cases e with
    | invalid_option c =>
      left
      exact ⟨c, rfl, by simpa [listed_cause] using hl⟩
    | requires_argument c =>
      have : c = 'o' ∨ c = 'c' := by simpa [listed_cause] using hl
      rcases this with h | h <;> subst h <;> simp
    | unrecognized text => simp [listed_cause] at hl
    | ambiguous text names => simp [listed_cause] at hl
    | no_argument_allowed name =>
      have : (name = "quiet" ∨ name = "help") ∨ name = "verbose" := by
        simpa [listed_cause] using hl
      rcases this with (h | h) | h <;> subst h <;> simp
    | long_requires_argument name =>
      have : name = "out" ∨ name = "image-extension" := by simpa [listed_cause] using hl
      rcases this with h | h <;> subst h <;> simp
  · rw [hc] at h
    rcases h with h | ⟨h, -⟩ | h | h | h | h <;> exact absurd h (by decide)

/-! ## The statements of the specification -/

/-- C1 (the code departs from the claim): `--countdown=10` does not store 10.
The table entry of `countdown` returns the integer 3, the `switch` arm that
converts the value is labelled `'3'` (51), so the `default` arm runs: whatever
the record is before the call, it is returned as it was, and a record with
`countdown = 5` still has 5. -/
theorem C1_countdown_value_is_dropped (o : xsr_options) :
    parse_arguments ["xsr", "--countdown=10"] o
      = .ok { ret := false, options := o, cerr := [] } := by
  rfl

/-- C2 (the code departs from the claim): `--countdown` without a value does
not reset the countdown to 5; whatever the record is before the call, it is
returned as it was, so a record that starts with `countdown = 7` still has 7. -/
theorem C2_bare_countdown_keeps_old_value (o : xsr_options) :
    parse_arguments ["xsr", "--countdown"] o
      = .ok { ret := false, options := o, cerr := [] } := by
  rfl

/-- C3, as stated, fails: in `xsr -o -h` the token `-h` is the argument of `-o`,
and in `xsr -- --help` the token `--help` follows the terminator; both lists
contain a help token with no unrecognized option before it, and
`parse_arguments` returns false and writes nothing. -/
theorem C3_help_token_as_argument :
    parse_arguments ["xsr", "-o", "-h"] default_options
      = .ok { ret := false, options := { default_options with outfile := some "-h" },
              cerr := [] }
    ∧ parse_arguments ["xsr", "--", "--help"] default_options
      = .ok { ret := false, options := { default_options with outfile := some "--help" },
              cerr := [] } := by
  decide

/-- C3, amended: let the argument list be `prog pre... t post...` where `t` is
`-h` or `--help`, `pre` holds no `--`, and `prog pre...` parsed on its own
returns false (every option before `t` is recognized and complete, so `t` is
not taken as an option's argument). Then `parse_arguments` returns true and
what it writes to the diagnostic stream is exactly the usage text. -/
theorem C3_help_in_option_position (prog : String) (pre : List String) (t : String)
    (post : List String) (o : xsr_options)
    (ht : t = "-h" ∨ t = "--help") (hn : "--" ∉ pre)
    (hpre : ∃ r0, parse_arguments (prog :: pre) o = .ok r0 ∧ r0.ret = false) :
    ∃ r, parse_arguments (prog :: (pre ++ t :: post)) o = .ok r ∧ r.ret = true
      ∧ r.cerr = [show_help prog] := by
  have hcall : ∀ ops, getopt_long shortoptions longoptions ⟨t :: post, [], ops⟩
      = .ok ⟨104, none, none, ⟨post, [], ops⟩⟩ := by
    intro ops
    rcases ht with ht | ht <;> subst ht
    · exact getopt_long_help_short post ops
    · exact getopt_long_help_long post ops
  obtain ⟨r, h1, h2, ops, x, hx, h3⟩ := parse_arguments_stop_token prog pre t post o hn hpre
    (fun ops => ⟨_, hcall ops, Or.inr rfl⟩)
  refine ⟨r, h1, h2, ?_⟩
  rw [hcall ops] at hx
  injection hx with hx
  subst hx
  rw [h3]
  rfl

theorem C3_help_in_option_position_witness :
    ∃ r, parse_arguments ["xsr", "-q", "a.html", "-o", "x.html", "--help", "-v"]
        default_options = .ok r
      ∧ r.ret = true ∧ r.cerr = [show_help "xsr"] :=
  C3_help_in_option_position "xsr" ["-q", "a.html", "-o", "x.html"] "--help" ["-v"]
    default_options (Or.inr rfl) (by decide) ⟨_, rfl, rfl⟩

/-- C4, as stated, fails: in `xsr -o --bogus` the token `--bogus` is the
argument of `-o`, and in `xsr -- -x` the token `-x` follows the terminator;
both lists contain an option token of an unlisted name, and `parse_arguments`
returns false and writes no usage text. -/
theorem C4_unlisted_token_not_scanned :
    parse_arguments ["xsr", "-o", "--bogus"] default_options
      = .ok { ret := false, options := { default_options with outfile := some "--bogus" },
              cerr := [] }
    ∧ parse_arguments ["xsr", "--", "-x"] default_options
      = .ok { ret := false, options := { default_options with outfile := some "-x" },
              cerr := [] } := by
  decide

/-- C4, amended: let the argument list be `prog pre... t post...` where `t` is
a group of short options whose first option character `c` is none of o, c, q,
h, v (`invalid_short t = some c`), `pre` holds no `--`, and `prog pre...` parsed
on its own returns false. Then `parse_arguments` returns true and writes two
texts: the scanner's error line, which for an ASCII character `c` reads
`prog: invalid option -- 'c'`, and then the usage text, which is the very text
a help request with the same program name writes. Long names are left out:
for a name that is not exactly a name of the table the scanner runs past the
table. -/
theorem C4_invalid_short_option_prints_usage (prog : String) (pre : List String)
    (t : String) (c : Char) (post : List String) (o : xsr_options)
    (ht : invalid_short t = some c) (hn : "--" ∉ pre)
    (hpre : ∃ r0, parse_arguments (prog :: pre) o = .ok r0 ∧ r0.ret = false) :
    ∃ r msg, parse_arguments (prog :: (pre ++ t :: post)) o = .ok r ∧ r.ret = true
      ∧ r.cerr = [msg, show_help prog]
      ∧ (c.toNat < 128 →
          msg = prog ++ ": invalid option -- \x27" ++ String.mk [c] ++ "\x27\n")
      ∧ parse_arguments [prog, "--help"] o
          = .ok { ret := true, options := o, cerr := [show_help prog] } := by
  have hcall := fun ops => getopt_long_invalid_short t c post ops ht
  obtain ⟨r, h1, h2, ops, x, hx, h3⟩ := parse_arguments_stop_token prog pre t post o hn hpre
    (fun ops => ⟨_, hcall ops, Or.inl rfl⟩)
  rw [hcall ops] at hx
  injection hx with hx
  subst hx
  exact ⟨r, _, h1, h2, h3, fun _ => rfl, rfl⟩

theorem C4_invalid_short_option_prints_usage_witness :
    ∃ r msg, parse_arguments ["xsr", "-v", "-o", "x.html", "-x", "-q"]
        default_options = .ok r
      ∧ r.ret = true ∧ r.cerr = [msg, show_help "xsr"]
      ∧ ('x'.toNat < 128 →
          msg = "xsr" ++ ": invalid option -- \x27" ++ String.mk ['x'] ++ "\x27\n")
      ∧ parse_arguments ["xsr", "--help"] default_options
          = .ok { ret := true, options := default_options, cerr := [show_help "xsr"] } :=
  C4_invalid_short_option_prints_usage "xsr" ["-v", "-o", "x.html"] "-x" 'x' ["-q"]
    default_options (by decide) (by decide) ⟨_, rfl, rfl⟩

/-- C5, as stated, fails: a list that ends with `-o` or `--out` lacking its
argument meets neither a help option nor an unrecognized name, yet the scanner
reports the missing argument with the code `'?'` and `parse_arguments` returns
true (after the scanner's message and the usage text). -/
theorem C5_missing_argument_returns_true :
    parse_arguments ["xsr", "-o"] default_options
      = .ok { ret := true, options := default_options,
              cerr := ["xsr: option requires an argument -- \x27o\x27\n", show_help "xsr"] }
    ∧ parse_arguments ["xsr", "--out"] default_options
      = .ok { ret := true, options := default_options,
              cerr := ["xsr: option \x27--out\x27 requires an argument\n", show_help "xsr"] } :=
  ⟨rfl, rfl⟩

/-- C5, amended: a call of `parse_arguments` that returns, returns true
exactly when the scan met a help option or a scanner error, and the scanner
errors are: a short option character that is none of o, c, q, h, v; `-o` or
`-c`, `--out` or `--image-extension` as the last thing of the list, lacking the
required argument (so a list that ends with `-o` or `--out` returns true); a
value attached to `--quiet`, `--help` or `--verbose`. Otherwise it returns
false. The call does return when every element that starts with `--` carries
exactly a name of the table. -/
theorem C5_true_iff_help_or_error (argv : List String) (o : xsr_options) :
    (∀ r, parse_arguments argv o = .ok r →
      (r.ret = true ↔
        ∃ x ∈ scan argv, x.code = ('h'.toNat : Int)
          ∨ (x.code = ('?'.toNat : Int)
            ∧ ((∃ c, x.error = some (.invalid_option c)
                  ∧ c ≠ 'o' ∧ c ≠ 'c' ∧ c ≠ 'q' ∧ c ≠ 'h' ∧ c ≠ 'v')
              ∨ x.error = some (.requires_argument 'o')
              ∨ x.error = some (.requires_argument 'c')
              ∨ x.error = some (.long_requires_argument "out")
              ∨ x.error = some (.long_requires_argument "image-extension")
              ∨ x.error = some (.no_argument_allowed "quiet")
              ∨ x.error = some (.no_argument_allowed "help")
              ∨ x.error = some (.no_argument_allowed "verbose")))))
    ∧ (argv.tail.all exact_name = true → ∃ r, parse_arguments argv o = .ok r) := by
  refine ⟨?_, parse_arguments_returns argv o⟩
  intro r hr
  obtain ⟨pre, h4, h5, hs⟩ := scan_shape argv
  rw [parse_arguments_replay] at hr
  have key : ∃ tail, scan argv = pre ++ tail
      ∧ (tail = [] ∨ ∃ last, tail = [last] ∧ last.code = -1) := by
    rcases hs with ⟨hs, -⟩ | ⟨last, hs, hl, -⟩
    · exact ⟨[], by rw [hs]; simp, Or.inl rfl⟩
    · exact ⟨[last], hs, Or.inr ⟨last, rfl, hl⟩⟩
  obtain ⟨tail, hs1, ht⟩ := key
  rw [hs1] at hr
  rw [(replay_ret (progname argv) pre tail ht o [] r (fun x hx => (h4 x hx).2) hr).1]
  constructor
  · rintro ⟨x, hx, hc⟩
    refine ⟨x, by rw [hs1]; exact List.mem_append_left _ hx, ?_⟩
    rcases hc with hc | hc
    · right
      refine ⟨hc, ?_⟩
      exact stop_cause_listed x (h4 x hx).1 hc
    · left; exact hc
  · rintro ⟨x, hx, hc⟩
    rw [hs1] at hx
    rcases List.mem_append.mp hx with hx | hx
    · refine ⟨x, hx, ?_⟩
      rcases hc with hc | ⟨hc, -⟩
      · right; exact hc
      · left; exact hc
    · exfalso
      rcases ht with ht | ⟨last, ht, hl⟩
      · subst ht; simp at hx
      · subst ht
        simp at hx
        subst hx
        rcases hc with hc | ⟨hc, -⟩ <;> rw [hl] at hc <;> revert hc <;> decide

theorem C5_true_iff_help_or_error_witness :
    ∃ r, parse_arguments ["xsr", "-q", "--out"] default_options = .ok r ∧ r.ret = true
      ∧ ∃ x ∈ scan ["xsr", "-q", "--out"],
          x.code = ('?'.toNat : Int) ∧ x.error = some (.long_requires_argument "out") :=
  ⟨_, rfl, ((C5_true_iff_help_or_error ["xsr", "-q", "--out"] default_options).1 _ rfl).mpr
      ⟨⟨63, none, some (.long_requires_argument "out"), ⟨[], [], []⟩⟩, by decide,
        Or.inr ⟨rfl, by simp⟩⟩,
    ⟨⟨63, none, some (.long_requires_argument "out"), ⟨[], [], []⟩⟩, by decide, rfl, rfl⟩⟩

/-- C6, as stated, fails: with the positionals `a.html b.html` the final
outfile is not the last one, `b.html`; it is `a.html`. -/
theorem C6_last_positional_not_taken :
    completes ["xsr", "a.html", "b.html"] = true
    ∧ stops ["xsr", "a.html", "b.html"] = false
    ∧ operands ["xsr", "a.html", "b.html"] = ["a.html", "b.html"]
    ∧ ¬ ∃ r, parse_arguments ["xsr", "a.html", "b.html"] default_options = .ok r
        ∧ r.options.outfile = some "b.html" := by
  refine ⟨by decide, by decide, by decide, ?_⟩
  rintro ⟨r, h1, h2⟩
  have h3 : parse_arguments ["xsr", "a.html", "b.html"] default_options
      = .ok { ret := false, options := { default_options with outfile := some "a.html" },
              cerr := [spurious_warning] } := by decide
  rw [h3] at h1
  injection h1 with h1
  subst h1
  revert h2
  decide

/-- C6, amended: for every argument list whose scan reaches the end of the
list without a stop and leaves two or more positional arguments,
`parse_arguments` returns false and the final outfile is the first of them (so
`a.html b.html` gives `a.html`). -/
theorem C6_first_of_several_positionals (argv : List String) (o : xsr_options)
    (p q : String) (ps : List String)
    (hc : completes argv = true) (hs : stops argv = false)
    (hp : operands argv = p :: q :: ps) :
    ∃ r, parse_arguments argv o = .ok r ∧ r.ret = false ∧ r.options.outfile = some p := by
  obtain ⟨pre, last, -, -, -, h⟩ := parse_arguments_of_clean_scan argv o hc hs
  rw [hp] at h
  exact ⟨_, h, parse_tail_ret _ _ _, parse_tail_outfile _ _ _ _⟩

theorem C6_first_of_several_positionals_witness :
    ∃ r, parse_arguments ["xsr", "a.html", "b.html"] default_options = .ok r
      ∧ r.ret = false ∧ r.options.outfile = some "a.html" :=
  C6_first_of_several_positionals ["xsr", "a.html", "b.html"] default_options
    "a.html" "b.html" [] (by decide) (by decide) (by decide)

/-- C7: for every argument list whose scan reaches the end of the list without
a stop and leaves at least one positional argument, `parse_arguments` returns
false and the final outfile is the first positional argument, whatever
`-o`/`--out` values the list gave and whether or not more positionals follow. -/
theorem C7_first_positional_is_outfile (argv : List String) (o : xsr_options)
    (p : String) (ps : List String)
    (hc : completes argv = true) (hs : stops argv = false)
    (hp : operands argv = p :: ps) :
    ∃ r, parse_arguments argv o = .ok r ∧ r.ret = false ∧ r.options.outfile = some p := by
  obtain ⟨pre, last, -, -, -, h⟩ := parse_arguments_of_clean_scan argv o hc hs
  rw [hp] at h
  exact ⟨_, h, parse_tail_ret _ _ _, parse_tail_outfile _ _ _ _⟩

theorem C7_first_positional_is_outfile_witness :
    (∃ r, parse_arguments ["xsr", "-o", "x.html", "a.html", "--out=y.html"]
        default_options = .ok r
      ∧ r.ret = false ∧ r.options.outfile = some "a.html")
    ∧ operands ["xsr", "-o", "x.html", "a.html", "--out=y.html"] = ["a.html"] :=
  ⟨C7_first_positional_is_outfile ["xsr", "-o", "x.html", "a.html", "--out=y.html"]
    default_options "a.html" [] (by decide) (by decide) (by decide), by decide⟩

/-- C8: for every argument list whose scan reaches the end of the list without
a stop, `parse_arguments` returns false, and what it writes to the diagnostic
stream is the spurious-arguments warning alone when two or more positional
arguments remain and `quiet` is false in the final record, and nothing
otherwise. -/
theorem C8_warning_iff_spurious_and_not_quiet (argv : List String) (o : xsr_options)
    (hc : completes argv = true) (hs : stops argv = false) :
    ∃ r, parse_arguments argv o = .ok r ∧ r.ret = false
      ∧ r.cerr = if 2 ≤ (operands argv).length ∧ r.options.quiet = false
                 then [spurious_warning] else [] := by
  obtain ⟨pre, last, -, -, -, h⟩ := parse_arguments_of_clean_scan argv o hc hs
  exact ⟨_, h, parse_tail_ret _ _ _, parse_tail_cerr _ _⟩

theorem C8_warning_iff_spurious_and_not_quiet_witness :
    (∃ r, parse_arguments ["xsr", "a.html", "-q", "b.html"] default_options = .ok r
      ∧ r.ret = false
      ∧ r.cerr = if 2 ≤ (operands ["xsr", "a.html", "-q", "b.html"]).length
                    ∧ r.options.quiet = false
                 then [spurious_warning] else [])
    ∧ parse_arguments ["xsr", "a.html", "-q", "b.html"] default_options
        = .ok { ret := false,
                options := { default_options with outfile := some "a.html", quiet := true },
                cerr := [] }
    ∧ parse_arguments ["xsr", "a.html", "b.html"] default_options
        = .ok { ret := false,
                options := { default_options with outfile := some "a.html" },
                cerr := [spurious_warning] } :=
  ⟨C8_warning_iff_spurious_and_not_quiet ["xsr", "a.html", "-q", "b.html"] default_options
    (by decide) (by decide), by decide, by decide⟩

/-- C9: if `quiet` and `verbose` are not both true before the call, they are
not both true in the record of any call that returns, whether it returns true
or false, for every argument list; and the call does return when every element
that starts with `--` carries exactly a name of the table. -/
theorem C9_quiet_verbose_exclusive (argv : List String) (o : xsr_options)
    (h : ¬ (o.quiet = true ∧ o.verbose = true)) :
    (∀ r, parse_arguments argv o = .ok r →
      ¬ (r.options.quiet = true ∧ r.options.verbose = true))
    ∧ (argv.tail.all exact_name = true → ∃ r, parse_arguments argv o = .ok r) := by
  refine ⟨?_, parse_arguments_returns argv o⟩
  intro r hr
  rw [parse_arguments_replay] at hr
  exact replay_exclusive _ _ o [] r hr h

theorem C9_quiet_verbose_exclusive_witness :
    ∃ r, parse_arguments ["xsr", "-q", "-v", "--quiet", "-h"] default_options = .ok r
      ∧ ¬ (r.options.quiet = true ∧ r.options.verbose = true) :=
  ⟨_, rfl, (C9_quiet_verbose_exclusive ["xsr", "-q", "-v", "--quiet", "-h"] default_options
    (by decide)).1 _ rfl⟩

/-- C10: for every argument list whose scan reaches the end of the list
without a stop, if `k` is the last quiet-or-verbose option code the scan
returns, `parse_arguments` returns false and the final record has
`verbose = true, quiet = false` when `k` is the verbose code and
`quiet = true, verbose = false` when `k` is the quiet code. -/
theorem C10_later_flag_wins (argv : List String) (o : xsr_options) (k : Int)
    (hc : completes argv = true) (hs : stops argv = false)
    (hk : ((scan_codes argv).filter
        (fun c => c = ('q'.toNat : Int) ∨ c = ('v'.toNat : Int))).getLast? = some k) :
    ∃ r, parse_arguments argv o = .ok r ∧ r.ret = false
      ∧ (k = ('v'.toNat : Int) → r.options.verbose = true ∧ r.options.quiet = false)
      ∧ (k = ('q'.toNat : Int) → r.options.quiet = true ∧ r.options.verbose = false) := by
  obtain ⟨pre, last, -, -, hcodes, h⟩ := parse_arguments_of_clean_scan argv o hc hs
  rw [hcodes] at hk
  refine ⟨_, h, parse_tail_ret _ _ _, ?_⟩
  rw [(parse_tail_flags _ _ _).1, (parse_tail_flags _ _ _).2]
  exact foldl_option_effect_flags pre o k hk

theorem C10_later_flag_wins_witness :
    (∃ r, parse_arguments ["xsr", "-q", "-v"] default_options = .ok r ∧ r.ret = false
      ∧ (('v'.toNat : Int) = ('v'.toNat : Int)
          → r.options.verbose = true ∧ r.options.quiet = false)
      ∧ (('v'.toNat : Int) = ('q'.toNat : Int)
          → r.options.quiet = true ∧ r.options.verbose = false))
    ∧ scan_codes ["xsr", "-q", "-v"] = [('q'.toNat : Int), ('v'.toNat : Int)] :=
  ⟨C10_later_flag_wins ["xsr", "-q", "-v"] default_options ('v'.toNat : Int)
    (by decide) (by decide) (by decide), by decide⟩

/-- C11: for every argument list whose scan reaches the end of the list
without a stop and leaves no positional argument, if the scan returns an
`-o`/`--out` option at all, `parse_arguments` returns false and the final
outfile is the argument of the last one. -/
theorem C11_last_out_wins (argv : List String) (o : xsr_options) (c : getopt_result)
    (hcomp : completes argv = true) (hs : stops argv = false) (hp : operands argv = [])
    (hc : ((scan argv).filter (fun r => r.code = ('o'.toNat : Int))).getLast? = some c) :
    ∃ r, parse_arguments argv o = .ok r ∧ r.ret = false
      ∧ r.options.outfile = c.optarg := by
  obtain ⟨pre, last, h1, h2, -, h⟩ := parse_arguments_of_clean_scan argv o hcomp hs
  have hc1 : (pre.filter (fun r => r.code = ('o'.toNat : Int))).getLast? = some c := by
    rw [h1, List.filter_append] at hc
    simpa [List.filter, h2] using hc
  rw [hp] at h
  refine ⟨_, h, rfl, ?_⟩
  exact foldl_option_effect_outfile pre o c hc1

theorem C11_last_out_wins_witness :
    ∃ r, parse_arguments ["xsr", "--out", "foo.html", "--out", "bar.html"]
        default_options = .ok r
      ∧ r.ret = false ∧ r.options.outfile = some "bar.html" :=
  C11_last_out_wins ["xsr", "--out", "foo.html", "--out", "bar.html"] default_options
    { code := 'o'.toNat, optarg := some "bar.html", error := none,
      data := { rest := [], nextchar := [], nonopts := [] } }
    (by decide) (by decide) (by decide) (by decide)

/-- C12: with the program name alone, `parse_arguments` returns false, writes
nothing and leaves the record as it was; the default record keeps
`image_ext = "png"`, `countdown = 5`, `quiet = false` and `verbose = false`. -/
theorem C12_no_arguments_changes_nothing (prog : String) (o : xsr_options) :
    parse_arguments [prog] o = .ok { ret := false, options := o, cerr := [] }
    ∧ parse_arguments [prog] default_options
        = .ok { ret := false, options := default_options, cerr := [] }
    ∧ default_options.image_ext = "png" ∧ default_options.countdown = 5
    ∧ default_options.quiet = false ∧ default_options.verbose = false :=
  ⟨rfl, rfl, rfl, rfl, rfl, rfl⟩

/-- C13 (the code departs from the claim): `-o -` does not make the record
quiet. Whatever the record is before the call, `xsr -o -` and `xsr --out -`
only set `outfile` to `-`; a record with `quiet = false` still has
`quiet = false`, although the usage text says that `-o -` implies `--quiet`. -/
theorem C13_out_dash_leaves_quiet (o : xsr_options) :
    parse_arguments ["xsr", "-o", "-"] o
      = .ok { ret := false, options := { o with outfile := some "-" }, cerr := [] }
    ∧ parse_arguments ["xsr", "--out", "-"] o
      = .ok { ret := false, options := { o with outfile := some "-" }, cerr := [] } :=
  ⟨rfl, rfl⟩

/-- C14: for every argument list and every starting record with a
non-negative countdown, the record of any call of `parse_arguments` that
returns has a non-negative countdown (also with `--countdown=-3` in the list);
and the call does return when every element that starts with `--` carries
exactly a name of the table. -/
theorem C14_countdown_stays_nonnegative (argv : List String) (o : xsr_options)
    (h : 0 ≤ o.countdown) :
    (∀ r, parse_arguments argv o = .ok r → 0 ≤ r.options.countdown)
    ∧ (argv.tail.all exact_name = true → ∃ r, parse_arguments argv o = .ok r) := by
  refine ⟨?_, parse_arguments_returns argv o⟩
  intro r hr
  rw [parse_arguments_replay] at hr
  rw [(replay_frame _ _ o [] r hr).1]
  exact h

theorem C14_countdown_stays_nonnegative_witness :
    ∃ r, parse_arguments ["xsr", "--countdown=-3"] default_options = .ok r
      ∧ 0 ≤ r.options.countdown :=
  ⟨_, rfl, (C14_countdown_stays_nonnegative ["xsr", "--countdown=-3"] default_options
    (by decide)).1 _ rfl⟩

/-- C15: for every string `ext`, the lists `prog -c ext` and
`prog --image-extension ext` make `parse_arguments` return false, write nothing
and store `ext` itself in `image_ext` (no check against a set of supported
formats); every other field keeps its value. -/
theorem C15_image_extension_stored (prog ext : String) (o : xsr_options) :
    parse_arguments [prog, "-c", ext] o
      = .ok { ret := false, options := { o with image_ext := ext }, cerr := [] }
    ∧ parse_arguments [prog, "--image-extension", ext] o
      = .ok { ret := false, options := { o with image_ext := ext }, cerr := [] } := by
  constructor
  · have hb : scan_budget ⟨["-c", ext], [], []⟩ < ext.length + 5 := by
      have : ("-c" : String).length = 2 := by decide
      simp [scan_budget, this]
      omega
    have e : parse_arguments [prog, "-c", ext] o
        = parse_loop prog (ext.length + 5) ⟨["-c", ext], [], []⟩ o [] :=
      parse_loop_fuel prog _ _ _ o [] (Nat.lt_succ_self _) hb
    rw [e]
    rfl
  · have hb : scan_budget ⟨["--image-extension", ext], [], []⟩ < ext.length + 20 := by
      have : ("--image-extension" : String).length = 17 := by decide
      simp [scan_budget, this]
      omega
    have e : parse_arguments [prog, "--image-extension", ext] o
        = parse_loop prog (ext.length + 20) ⟨["--image-extension", ext], [], []⟩ o [] :=
      parse_loop_fuel prog _ _ _ o [] (Nat.lt_succ_self _) hb
    rw [e]
    rfl

/-- C16: for every argument list on which `parse_arguments` returns true, the
final record is the starting record with the effects of the options the scan
returned before the first stop (help or scanner error) applied in order;
nothing the scan would return after the stop, and no positional argument,
enters the record. -/
theorem C16_stop_aborts_parsing (argv : List String) (o : xsr_options) (r : Outcome)
    (h : parse_arguments argv o = .ok r) (ht : r.ret = true) :
    r.options = (before_stop argv).foldl option_effect o := by
  rw [parse_arguments_replay] at h
  exact replay_stop_options _ _ o [] r h ht

theorem C16_stop_aborts_parsing_witness :
    ∃ r, parse_arguments ["xsr", "-q", "a.html", "-o", "x.html", "-h", "-v", "--out", "y"]
        default_options = .ok r
      ∧ r.options = { default_options with quiet := true, outfile := some "x.html" }
      ∧ r.options = (before_stop
          ["xsr", "-q", "a.html", "-o", "x.html", "-h", "-v", "--out", "y"]).foldl
            option_effect default_options :=
  ⟨_, rfl, rfl, C16_stop_aborts_parsing _ default_options _ rfl rfl⟩

/-- C17: for every argument list on which `parse_arguments` returns true, the
last text written to the diagnostic stream is the usage text for `argv[0]`, it
begins with the line `Usage: <argv[0]> [options] [outfile]`, and from any other
starting record (quiet or not) the call again returns true and writes the same
texts. -/
theorem C17_usage_regardless_of_quiet (argv : List String) (o : xsr_options) (r : Outcome)
    (h : parse_arguments argv o = .ok r) (ht : r.ret = true) :
    r.cerr.getLast? = some (show_help (progname argv))
    ∧ (∃ more, show_help (progname argv)
        = "Usage: " ++ progname argv ++ " [options] [outfile]\n" ++ more)
    ∧ ∀ o2 : xsr_options, ∃ r2, parse_arguments argv o2 = .ok r2 ∧ r2.ret = true
        ∧ r2.cerr = r.cerr := by
  rw [parse_arguments_replay] at h
  refine ⟨(replay_stop_cerr _ _ o o [] r h ht).2, show_help_first_line _, ?_⟩
  intro o2
  obtain ⟨r2, h2, h3, h4⟩ := (replay_stop_cerr _ _ o o2 [] r h ht).1
  exact ⟨r2, by rw [parse_arguments_replay]; exact h2, h3, h4⟩

theorem C17_usage_regardless_of_quiet_witness :
    ∃ r, parse_arguments ["xsr", "-q", "--help"] default_options = .ok r
      ∧ r.options.quiet = true
      ∧ r.cerr.getLast? = some (show_help "xsr")
      ∧ (∃ more, show_help "xsr" = "Usage: " ++ "xsr" ++ " [options] [outfile]\n" ++ more)
      ∧ ∀ o2 : xsr_options, ∃ r2, parse_arguments ["xsr", "-q", "--help"] o2 = .ok r2
          ∧ r2.ret = true ∧ r2.cerr = r.cerr :=
  ⟨_, rfl, rfl, C17_usage_regardless_of_quiet ["xsr", "-q", "--help"] default_options _ rfl rfl⟩

/-- C18 (the code departs from the claim): `--countdown=abc` raises no
conversion fault. `std::stoi` would fail on `abc`, but the arm that calls it is
labelled `'3'` (51) while the scanner returns 3, so the value is never
converted: the call returns false with the record as it was. -/
theorem C18_non_numeric_countdown_returns (o : xsr_options) :
    parse_arguments ["xsr", "--countdown=abc"] o
      = .ok { ret := false, options := o, cerr := [] }
    ∧ stoi "abc" = .error Fault.invalid_argument :=
  ⟨rfl, rfl⟩

/-- C19: for every argument list and starting record, a call of
`parse_arguments` that returns leaves `countdown`, `mouse_icon` and `no_mouse`
as they were; a call of the scanner never returns the codes of the arms `'1'`,
`'2'`, `'3'` (49, 50, 51), and for `--countdown` it returns the integer 3. The
call does return when every element that starts with `--` carries exactly a
name of the table. -/
theorem C19_reserved_fields_untouched (argv : List String) (o : xsr_options) :
    (∀ r, parse_arguments argv o = .ok r →
      r.options.countdown = o.countdown
      ∧ r.options.mouse_icon = o.mouse_icon
      ∧ r.options.no_mouse = o.no_mouse)
    ∧ (∀ (d : getopt_data) (x : getopt_result),
        getopt_long shortoptions longoptions d = .ok x →
        x.code ≠ ('1'.toNat : Int) ∧ x.code ≠ ('2'.toNat : Int)
          ∧ x.code ≠ ('3'.toNat : Int))
    ∧ (∃ x, getopt_long shortoptions longoptions ⟨["--countdown"], [], []⟩ = .ok x
        ∧ x.code = 3)
    ∧ (argv.tail.all exact_name = true → ∃ r, parse_arguments argv o = .ok r) := by
  refine ⟨?_, ?_, ⟨_, rfl, rfl⟩, parse_arguments_returns argv o⟩
  · intro r hr
    rw [parse_arguments_replay] at hr
    exact replay_frame _ _ o [] r hr
  · intro d x hx
    rcases getopt_long_code d x hx with h | h | h | h | h | h | h | h <;> rw [h] <;> decide

theorem C19_reserved_fields_untouched_witness :
    ∃ r, parse_arguments ["xsr", "--countdown=9", "-q", "out.html"]
        { default_options with mouse_icon := some "m.png" } = .ok r
      ∧ r.options.countdown = 5 ∧ r.options.mouse_icon = some "m.png"
      ∧ r.options.no_mouse = false :=
  ⟨_, rfl, (C19_reserved_fields_untouched ["xsr", "--countdown=9", "-q", "out.html"]
    { default_options with mouse_icon := some "m.png" }).1 _ rfl⟩

/-- C20: for every argument list and starting record, if a first run of
`parse_arguments` returns, a second run on the same list, started from the
record the first run produced, returns the same boolean and the same record
(and writes the same texts) as the first run. A run does return when every
element that starts with `--` carries exactly a name of the table. -/
theorem C20_parsing_is_idempotent (argv : List String) (o : xsr_options) :
    (∀ r, parse_arguments argv o = .ok r → parse_arguments argv r.options = .ok r)
    ∧ (argv.tail.all exact_name = true → ∃ r, parse_arguments argv o = .ok r) := by
  refine ⟨?_, parse_arguments_returns argv o⟩
  intro r hr
  rw [parse_arguments_replay] at hr ⊢
  exact replay_between _ _ o _ [] r hr (between_final _ _)

theorem C20_parsing_is_idempotent_witness :
    parse_arguments ["xsr", "-v", "-o", "x.html", "a.html", "-q"]
      { default_options with outfile := some "a.html", quiet := true }
      = .ok { ret := false,
              options := { default_options with outfile := some "a.html", quiet := true },
              cerr := [] } :=
  (C20_parsing_is_idempotent ["xsr", "-v", "-o", "x.html", "a.html", "-q"]
    default_options).1 _ rfl

end Xsr
